import Mathlib

/-!
Shallow embedding of the texture container codec in `src/texture.rs` of the
`smb_tex` repository, together with proofs about the claims of its
specification.  Byte buffers are modelled as `List Nat` (each element a byte
value), 32-bit machine integers as `Nat` with explicit `% 2 ^ 32` where the
Rust code performs wrapping `u32` arithmetic, and the `i32` metadata fields as
`Int` with explicit two's-complement byte conversions.
-/

/-- Decidable equality for `Except`, so that concrete parse results can be
compared by `decide`. -/
instance {ε α : Type} [DecidableEq ε] [DecidableEq α] :
    DecidableEq (Except ε α) := fun x y =>
  match x, y with
  | .ok a, .ok b =>
    match decEq a b with
    | .isTrue h => .isTrue (by rw [h])
    | .isFalse h => .isFalse (by intro hc; cases hc; exact h rfl)
  | .error a, .error b =>
    match decEq a b with
    | .isTrue h => .isTrue (by rw [h])
    | .isFalse h => .isFalse (by intro hc; cases hc; exact h rfl)
  | .ok _, .error _ => .isFalse (by intro hc; cases hc)
  | .error _, .ok _ => .isFalse (by intro hc; cases hc)

/-- Errors surfaced by the binary reader.  `malformedContainer` models the
`binrw` I/O error produced when a read runs past the end of the buffer,
`unknownFormat` the enum-parse failure for a format discriminant outside
0..3, and `crash` the `unwrap` panic in `read_texture_data` when the decoded
pixel vector does not match the declared dimensions. -/
inductive ReadError where
  | malformedContainer
  | unknownFormat
  | crash
deriving DecidableEq

/-- Error taxonomy for the operations whose Rust signature is an `anyhow`
result (`TexturePackage::from_directory`, `write_texture_package`).
`unsupportedDimensions` appears only in the specification's taxonomy; the
source never constructs it. -/
inductive AppError where
  | missingMetadata
  | metaDecodeFailed
  | imageDecodeFailed
  | unsupportedDimensions
deriving DecidableEq

/-- The four on-disk pixel encodings (`enum TextureFormat`, repr u32). -/
inductive TextureFormat where
  | R5G5B5A1
  | R4G4B4A4
  | R5G6B5
  | R8G8B8A8
deriving DecidableEq

/-- The u32 discriminant of a format (`#[brw(repr = u32)]`). -/
def TextureFormat.code : TextureFormat → Nat
  | .R5G5B5A1 => 0
  | .R4G4B4A4 => 1
  | .R5G6B5 => 2
  | .R8G8B8A8 => 3

/-- One canonical 8-bit-per-channel RGBA pixel.  Channel values are `Nat`;
validity (each channel below 256) is carried as hypotheses where needed. -/
structure Pixel where
  r : Nat
  g : Nat
  b : Nat
  a : Nat
deriving DecidableEq

/-- A canonical raster (`image::RgbaImage`): row-major, top-to-bottom. -/
structure Image where
  width : Nat
  height : Nat
  pixels : List Pixel
deriving DecidableEq

/-- `struct TextureMeta`: id plus four opaque i32 fields and the format. -/
structure TextureMeta where
  id : Nat
  unk_c : Int
  unk_10 : Int
  unk_14 : Int
  unk_18 : Int
  texture_format : TextureFormat
deriving DecidableEq

/-- `struct Texture`: metadata plus decoded canonical raster. -/
structure Texture where
  meta : TextureMeta
  data : Image
deriving DecidableEq

/-- `struct TexturePackage`: the ordered texture sequence. -/
structure TexturePackage where
  textures : List Texture
deriving DecidableEq

/-- Bytes per pixel of each format (the `match` inside `data_size`). -/
def bpp : TextureFormat → Nat
  | .R5G5B5A1 => 2
  | .R4G4B4A4 => 2
  | .R5G6B5 => 2
  | .R8G8B8A8 => 4

/-- `fn data_size`: `width * height * bpp` in wrapping u32 arithmetic. -/
def data_size (format : TextureFormat) (width height : Nat) : Nat :=
  width * height * bpp format % 2 ^ 32

/-- Little-endian byte encoding of the low 16 bits of a number. -/
def le16 (n : Nat) : List Nat :=
  [n % 256, n / 256 % 256]

/-- Little-endian byte encoding of the low 32 bits of a number. -/
def le32 (n : Nat) : List Nat :=
  [n % 256, n / 256 % 256, n / 65536 % 256, n / 16777216 % 256]

/-- Little-endian read of a byte list. -/
def fromLE (l : List Nat) : Nat :=
  l.foldr (fun b acc => b + 256 * acc) 0

/-- Reinterpret a 32-bit unsigned value as a signed i32. -/
def toI32 (n : Nat) : Int :=
  if n < 2 ^ 31 then (n : Int) else (n : Int) - 2 ^ 32

/-- Little-endian two's-complement byte encoding of an i32 value. -/
def i32le (v : Int) : List Nat :=
  le32 (v % 2 ^ 32).toNat

/-- `Read::read_exact` on an in-memory cursor: take `n` bytes starting at
`pos`, failing when fewer than `n` bytes remain (a zero-length read always
succeeds, even past the end of the buffer). -/
def readExact (buffer : List Nat) (pos n : Nat) : Except ReadError (List Nat) :=
  if n ≤ buffer.length - pos then .ok ((buffer.drop pos).take n)
  else .error .malformedContainer

/-- Read a little-endian u32 at `pos`. -/
def readU32 (buffer : List Nat) (pos : Nat) : Except ReadError Nat :=
  (readExact buffer pos 4).map fromLE

/-- Read a little-endian i32 at `pos`. -/
def readI32 (buffer : List Nat) (pos : Nat) : Except ReadError Int :=
  (readU32 buffer pos).map toI32

/-- Parse the u32 format discriminant (`#[brw(repr = u32)]` enum read). -/
def parseTextureFormat (n : Nat) : Except ReadError TextureFormat :=
  match n with
  | 0 => .ok .R5G5B5A1
  | 1 => .ok .R4G4B4A4
  | 2 => .ok .R5G6B5
  | 3 => .ok .R8G8B8A8
  | _ => .error .unknownFormat

/-- Decode one R5G5B5A1 16-bit word (`read_texture_data`, first arm). -/
def decode_r5g5b5a1 (short : Nat) : Pixel :=
  ⟨((short >>> 11) &&& 0x1F) * 0xFF / 0x1F,
   ((short >>> 6) &&& 0x1F) * 0xFF / 0x1F,
   ((short >>> 1) &&& 0x1F) * 0xFF / 0x1F,
   ((short >>> 0) &&& 0x1) * 0xFF⟩

/-- Decode one R4G4B4A4 16-bit word. -/
def decode_r4g4b4a4 (short : Nat) : Pixel :=
  ⟨((short >>> 12) &&& 0xF) * 0xFF / 0xF,
   ((short >>> 8) &&& 0xF) * 0xFF / 0xF,
   ((short >>> 4) &&& 0xF) * 0xFF / 0xF,
   ((short >>> 0) &&& 0xF) * 0xFF / 0xF⟩

/-- Decode one R5G6B5 16-bit word; the alpha 255 comes from the
`DynamicImage::from(RgbImage)…into_rgba8()` conversion. -/
def decode_r5g6b5 (short : Nat) : Pixel :=
  ⟨((short >>> 11) &&& 0x1F) * 0xFF / 0x1F,
   ((short >>> 5) &&& 0x3F) * 0xFF / 0x3F,
   ((short >>> 0) &&& 0x1F) * 0xFF / 0x1F,
   0xFF⟩

/-- `bytemuck::cast_slice::<u8, u16>` on a little-endian machine: pair up
consecutive bytes into 16-bit words. -/
def toShorts : List Nat → List Nat
  | b0 :: b1 :: rest => (b0 + 256 * b1) :: toShorts rest
  | _ => []

/-- Group a byte list into RGBA quadruples (`RgbaImage::from_vec` layout). -/
def toPixels4 : List Nat → List Pixel
  | r :: g :: b :: a :: rest => ⟨r, g, b, a⟩ :: toPixels4 rest
  | _ => []

/-- Split a row-major pixel list into `h` rows of `w` pixels. -/
def toRows {α : Type} (h w : Nat) (l : List α) : List (List α) :=
  match h with
  | 0 => []
  | hh + 1 => l.take w :: toRows hh w (l.drop w)

/-- Vertical flip of a row-major pixel list (`DynamicImage::flipv`, and the
writer's `data.rows().rev()` traversal). -/
def flipPixels (w h : Nat) (pixels : List Pixel) : List Pixel :=
  ((toRows h w pixels).reverse).flatten

/-- The pure decoding tail of `read_texture_data`: turn the raw payload bytes
into pixels, check the dimensions (`RgbaImage::from_vec(…).unwrap()`, whose
failure is the `crash` outcome), and flip vertically. -/
def decodePixelData (bytes : List Nat) (w h : Nat) (format : TextureFormat) :
    Except ReadError Image :=
  let pixels :=
    match format with
    | .R5G5B5A1 => (toShorts bytes).map decode_r5g5b5a1
    | .R4G4B4A4 => (toShorts bytes).map decode_r4g4b4a4
    | .R5G6B5 => (toShorts bytes).map decode_r5g6b5
    | .R8G8B8A8 => toPixels4 bytes
  if pixels.length = w * h then .ok ⟨w, h, flipPixels w h pixels⟩
  else .error .crash

/-- `fn read_texture_data`: read `data_size` bytes at `ptr` and decode them. -/
def read_texture_data (buffer : List Nat) (ptr w h : Nat)
    (format : TextureFormat) : Except ReadError Image := do
  let bytes ← readExact buffer ptr (data_size format w h)
  decodePixelData bytes w h format

/-- Parse one `Texture`: the 32-byte header record, the u32 payload pointer,
then the payload fetched through that pointer (`FilePtr32`). -/
def readTexture (buffer : List Nat) (pos : Nat) : Except ReadError Texture := do
  let id ← readU32 buffer pos
  let width ← readU32 buffer (pos + 4)
  let height ← readU32 buffer (pos + 8)
  let unk_c ← readI32 buffer (pos + 12)
  let unk_10 ← readI32 buffer (pos + 16)
  let unk_14 ← readI32 buffer (pos + 20)
  let unk_18 ← readI32 buffer (pos + 24)
  let fmtCode ← readU32 buffer (pos + 28)
  let format ← parseTextureFormat fmtCode
  let dataPtr ← readU32 buffer (pos + 32)
  let img ← read_texture_data buffer dataPtr width height format
  return ⟨⟨id, unk_c, unk_10, unk_14, unk_18, format⟩, img⟩

/-- Parse `count` consecutive 36-byte texture records starting at `pos`. -/
def readTextures (buffer : List Nat) (pos : Nat) :
    Nat → Except ReadError (List Texture)
  | 0 => .ok []
  | n + 1 => do
    let t ← readTexture buffer pos
    let rest ← readTextures buffer (pos + 36) n
    return t :: rest

/-- `fn read_texture_package`: u32 texture count at 0, u32 table pointer at 4,
then the texture records at the table pointer. -/
def read_texture_package (buffer : List Nat) :
    Except ReadError TexturePackage := do
  let count ← readU32 buffer 0
  let ptr ← readU32 buffer 4
  let ts ← readTextures buffer ptr count
  return ⟨ts⟩

/-- Encode one pixel as an R5G5B5A1 16-bit word (`write_texture_package`). -/
def encode_r5g5b5a1 (p : Pixel) : Nat :=
  ((p.r * 0x1F / 0xFF) <<< 11) ||| ((p.g * 0x1F / 0xFF) <<< 6) |||
    ((p.b * 0x1F / 0xFF) <<< 1) ||| (p.a * 0x1 / 0xFF)

/-- Encode one pixel as an R4G4B4A4 16-bit word. -/
def encode_r4g4b4a4 (p : Pixel) : Nat :=
  ((p.r * 0xF / 0xFF) <<< 12) ||| ((p.g * 0xF / 0xFF) <<< 8) |||
    ((p.b * 0xF / 0xFF) <<< 4) ||| (p.a * 0xF / 0xFF)

/-- Encode one pixel as an R5G6B5 16-bit word. -/
def encode_r5g6b5 (p : Pixel) : Nat :=
  ((p.r * 0x1F / 0xFF) <<< 11) ||| ((p.g * 0x3F / 0xFF) <<< 5) |||
    (p.b * 0x1F / 0xFF)

/-- On-disk bytes of one pixel in the given format. -/
def encodePixelBytes (format : TextureFormat) (p : Pixel) : List Nat :=
  match format with
  | .R5G5B5A1 => le16 (encode_r5g5b5a1 p)
  | .R4G4B4A4 => le16 (encode_r4g4b4a4 p)
  | .R5G6B5 => le16 (encode_r5g6b5 p)
  | .R8G8B8A8 => [p.r, p.g, p.b, p.a]

/-- The payload bytes the writer emits for one texture: rows bottom-to-top
(`data.rows().rev()`), each pixel encoded in the texture's format. -/
def encodeTextureData (img : Image) (format : TextureFormat) : List Nat :=
  ((flipPixels img.width img.height img.pixels).map
    (encodePixelBytes format)).flatten

/-- The 36 bytes of one texture-header record: the eight `TextureHeader`
fields (width and height taken from the raster, not the metadata) followed by
the u32 payload pointer. -/
def headerRecordBytes (t : Texture) (dataOff : Nat) : List Nat :=
  le32 t.meta.id ++ le32 t.data.width ++ le32 t.data.height ++
    i32le t.meta.unk_c ++ i32le t.meta.unk_10 ++ i32le t.meta.unk_14 ++
    i32le t.meta.unk_18 ++ le32 t.meta.texture_format.code ++ le32 dataOff

/-- The header-table loop of `write_texture_package`: emit one record per
texture, advancing `data_offset` by each payload size in wrapping u32
arithmetic. -/
def writeHeaders : List Texture → Nat → List Nat
  | [], _ => []
  | t :: rest, dataOff =>
    headerRecordBytes t dataOff ++
      writeHeaders rest
        ((dataOff + data_size t.meta.texture_format t.data.width t.data.height)
          % 2 ^ 32)

/-- The payload region: every texture's payload bytes in texture order. -/
def writePayloads (ts : List Texture) : List Nat :=
  (ts.map (fun t => encodeTextureData t.data t.meta.texture_format)).flatten

/-- The byte buffer produced by `write_texture_package`: count and table
pointer, then (when at least one texture exists, so that the seek to 0x20 is
followed by a write that zero-fills the gap) 24 padding zeros, the header
table, and the payloads.  For an empty package the buffer is just the 8
header bytes, because seeking alone does not extend the `Vec`. -/
def writeBytes (p : TexturePackage) : List Nat :=
  le32 (p.textures.length % 2 ^ 32) ++ le32 0x20 ++
    match p.textures with
    | [] => []
    | _ :: _ =>
      List.replicate 24 0 ++
        writeHeaders p.textures
          ((0x20 + p.textures.length % 2 ^ 32 * 36) % 2 ^ 32) ++
        writePayloads p.textures

/-- `fn write_texture_package`.  Its Rust signature is a `Result`, but every
write lands in an in-memory `Vec` and cannot fail, so the result is always
`ok`. -/
def write_texture_package (p : TexturePackage) : Except AppError (List Nat) :=
  .ok (writeBytes p)

/-- One directory entry as seen by `TexturePackage::from_directory`: whether
it is a subdirectory, its extension, whether the `.json` sidecar with the
same stem exists, and the (externally decoded) sidecar and image contents. -/
structure DirItem where
  isDir : Bool
  ext : Option String
  hasMeta : Bool
  metaJson : Except Unit TextureMeta
  imageFile : Except Unit Image

/-- The directory-assembly loop of `TexturePackage::from_directory` over an
abstract directory listing: skip subdirectories and non-`png` entries, fail
with `missingMetadata` when the sidecar is absent, propagate sidecar-parse
and image-decode failures, and collect the textures in listing order. -/
def assembleTextures : List DirItem → Except AppError (List Texture)
  | [] => .ok []
  | item :: rest =>
    if item.isDir then assembleTextures rest
    else if item.ext ≠ some "png" then assembleTextures rest
    else if item.hasMeta = false then .error .missingMetadata
    else
      match item.metaJson, item.imageFile with
      | .error _, _ => .error .metaDecodeFailed
      | .ok _, .error _ => .error .imageDecodeFailed
      | .ok meta, .ok data =>
        (assembleTextures rest).map (fun ts => ⟨meta, data⟩ :: ts)

/-- `TexturePackage::from_directory` over an abstract directory listing. -/
def from_directory (items : List DirItem) : Except AppError TexturePackage :=
  (assembleTextures items).map TexturePackage.mk

/-- Decode-of-encode of a single pixel, per format: the value a pixel comes
back as after one encode–decode round trip. -/
def pixelRound (format : TextureFormat) (p : Pixel) : Pixel :=
  match format with
  | .R5G5B5A1 => decode_r5g5b5a1 (encode_r5g5b5a1 p)
  | .R4G4B4A4 => decode_r4g4b4a4 (encode_r4g4b4a4 p)
  | .R5G6B5 => decode_r5g6b5 (encode_r5g6b5 p)
  | .R8G8B8A8 => p

/-- Worst-case encode–decode error of the r, g, b and a channels for each
format, as realized by the code's floor-based scaling. -/
def channelBounds : TextureFormat → Nat × Nat × Nat × Nat
  | .R5G5B5A1 => (9, 9, 9, 255)
  | .R4G4B4A4 => (17, 17, 17, 17)
  | .R5G6B5 => (9, 4, 9, 255)
  | .R8G8B8A8 => (0, 0, 0, 0)

/-- A single-texture package whose payload-size computation
`width * height * bpp` exceeds the u32 domain. -/
def overflowPackage : TexturePackage :=
  ⟨[⟨⟨0, 0, 0, 0, 0, .R8G8B8A8⟩,
     ⟨65536, 65536, List.replicate (65536 * 65536) ⟨0, 0, 0, 0⟩⟩⟩]⟩

/-- The byte segment `seg` occurs in `buffer` starting at offset `pos`. -/
def SegAt (buffer : List Nat) (pos : Nat) (seg : List Nat) : Prop :=
  ∃ pre post, buffer = pre ++ seg ++ post ∧ pre.length = pos

/-- A `Texture` value as `image::RgbaImage` and the u32/i32 header fields
guarantee it in Rust: consistent raster dimensions, byte-valued channels,
and header fields within their 32-bit domains. -/
def validTexture (t : Texture) : Prop :=
  t.data.pixels.length = t.data.width * t.data.height ∧
  (∀ p ∈ t.data.pixels, p.r < 256 ∧ p.g < 256 ∧ p.b < 256 ∧ p.a < 256) ∧
  t.data.width < 2 ^ 32 ∧ t.data.height < 2 ^ 32 ∧
  t.meta.id < 2 ^ 32 ∧
  -2 ^ 31 ≤ t.meta.unk_c ∧ t.meta.unk_c < 2 ^ 31 ∧
  -2 ^ 31 ≤ t.meta.unk_10 ∧ t.meta.unk_10 < 2 ^ 31 ∧
  -2 ^ 31 ≤ t.meta.unk_14 ∧ t.meta.unk_14 < 2 ^ 31 ∧
  -2 ^ 31 ≤ t.meta.unk_18 ∧ t.meta.unk_18 < 2 ^ 31

/-- Total payload byte count of a texture list (true, unwrapped sizes). -/
def payloadSize (ts : List Texture) : Nat :=
  (ts.map (fun t =>
    t.data.width * t.data.height * bpp t.meta.texture_format)).sum

/-- The texture a parse of this texture's written bytes produces: same
metadata and dimensions, pixels quantized by one encode–decode round trip. -/
def roundTexture (t : Texture) : Texture :=
  ⟨t.meta,
   ⟨t.data.width, t.data.height,
    t.data.pixels.map (pixelRound t.meta.texture_format)⟩⟩

/-- A 68-byte container: count 1, table at 0x20, one 0 × 0 R8G8B8A8 texture
whose payload pointer 0xFFFF lies far past the end of the buffer. -/
def outOfRangePtrBuffer : List Nat :=
  [1, 0, 0, 0, 0x20, 0, 0, 0] ++ List.replicate 24 0 ++
    ([2, 0, 0, 0] ++ [0, 0, 0, 0] ++ [0, 0, 0, 0] ++ List.replicate 16 0 ++
      [3, 0, 0, 0] ++ [0xFF, 0xFF, 0, 0])

/-- A 68-byte container: count 1, table at 0x20, one 2 × 1 R5G5B5A1 texture
whose 4 declared payload bytes at pointer 0x44 lie past the end of the
buffer (the buffer stops right after the header record). -/
def truncatedPayloadBuffer : List Nat :=
  [1, 0, 0, 0, 0x20, 0, 0, 0] ++ List.replicate 24 0 ++
    headerRecordBytes
      ⟨⟨7, 0, 0, 0, 0, .R5G5B5A1⟩, ⟨2, 1, [⟨0, 0, 0, 0⟩, ⟨0, 0, 0, 0⟩]⟩⟩ 0x44

/-! ## Arithmetic helpers -/

/-- Bitwise or of values occupying disjoint bit ranges is addition. -/
theorem or_eq_add {x y k : Nat} (hx : x % 2 ^ k = 0) (hy : y < 2 ^ k) :
    x ||| y = x + y := by
  obtain ⟨q, hq⟩ := Nat.dvd_of_mod_eq_zero hx
  subst hq
  exact (Nat.mul_add_lt_is_or hy q).symm

/-- Shift-and-mask extraction is division and remainder. -/
theorem shift_mask_eq (s i m : Nat) :
    (s >>> i) &&& (2 ^ m - 1) = s / 2 ^ i % 2 ^ m := by
  rw [Nat.shiftRight_eq_div_pow, Nat.and_pow_two_sub_one_eq_mod]

/-- Rows produced by `toRows` only contain elements of the original list. -/
theorem toRows_subset {α : Type} :
    ∀ (h w : Nat) (l row : List α), row ∈ toRows h w l → ∀ y ∈ row, y ∈ l := by
  intro h
  induction h with
  | zero => intro w l row hr; simp [toRows] at hr
  | succ hh ih =>
    intro w l row hr y hy
    simp only [toRows, List.mem_cons] at hr
    rcases hr with hr | hr
    · exact List.take_subset w l (hr ▸ hy)
    · exact List.drop_subset w l (ih w (l.drop w) row hr y hy)

/-- Vertical flipping does not add pixels. -/
theorem mem_flipPixels {p : Pixel} {w h : Nat} {l : List Pixel}
    (hp : p ∈ flipPixels w h l) : p ∈ l := by
  unfold flipPixels at hp
  rw [List.mem_flatten] at hp
  obtain ⟨row, hrow, hpr⟩ := hp
  rw [List.mem_reverse] at hrow
  exact toRows_subset h w l row hrow p hpr

/-- C5: for every 16-bit word decoded as R5G5B5A1, the decoder extracts R
from bits 15–11, G from bits 10–6, B from bits 5–1 and A from bit 0,
expanding each channel by linear scaling `value * 255 / max_n_bit`, the
1-bit alpha scaling to exactly 0 or 255. -/
theorem C5_decode_r5g5b5a1_bit_layout (short : Nat) :
    decode_r5g5b5a1 short =
      ⟨short / 2 ^ 11 % 2 ^ 5 * 255 / 31,
       short / 2 ^ 6 % 2 ^ 5 * 255 / 31,
       short / 2 ^ 1 % 2 ^ 5 * 255 / 31,
       short % 2 * 255⟩ ∧
    ((decode_r5g5b5a1 short).a = 0 ∨ (decode_r5g5b5a1 short).a = 255) := by
  have h1 := shift_mask_eq short 11 5
  have h2 := shift_mask_eq short 6 5
  have h3 := shift_mask_eq short 1 5
  norm_num at h1 h2 h3
  constructor
  · simp only [decode_r5g5b5a1, Nat.shiftRight_zero, Nat.and_one_is_mod]
    rw [h1, h2, h3]
    norm_num
  · simp only [decode_r5g5b5a1, Nat.shiftRight_zero, Nat.and_one_is_mod]
    rcases Nat.mod_two_eq_zero_or_one short with h | h <;> rw [h] <;> simp

/-- C6: for every 16-bit word decoded as R5G6B5, the decoder extracts R from
bits 15–11, G from bits 10–5 and B from bits 4–0 with linear scaling, and
every pixel of a raster decoded in this format has alpha 255. -/
theorem C6_decode_r5g6b5_bit_layout :
    (∀ short : Nat,
      decode_r5g6b5 short =
        ⟨short / 2 ^ 11 % 2 ^ 5 * 255 / 31,
         short / 2 ^ 5 % 2 ^ 6 * 255 / 63,
         short % 2 ^ 5 * 255 / 31,
         255⟩) ∧
    (∀ (bytes : List Nat) (w h : Nat) (img : Image),
      decodePixelData bytes w h .R5G6B5 = .ok img →
        ∀ p ∈ img.pixels, p.a = 255) := by
  constructor
  · intro short
    have h1 := shift_mask_eq short 11 5
    have h2 := shift_mask_eq short 5 6
    have h3 := shift_mask_eq short 0 5
    rw [Nat.shiftRight_zero] at h3
    norm_num at h1 h2 h3
    simp only [decode_r5g6b5, Nat.shiftRight_zero]
    rw [h1, h2, h3]
    norm_num
  · intro bytes w h img himg p hp
    simp only [decodePixelData] at himg
    split at himg
    · cases himg
      have hmem := mem_flipPixels hp
      rw [List.mem_map] at hmem
      obtain ⟨s, _, hs⟩ := hmem
      rw [← hs]
      rfl
    · cases himg

/-- Alpha component of the R5G5B5A1 decoder is the lowest bit times 255. -/
theorem decode_r5g5b5a1_a (s : Nat) : (decode_r5g5b5a1 s).a = s % 2 * 255 := by
  simp [decode_r5g5b5a1, Nat.shiftRight_zero, Nat.and_one_is_mod]

/-- Closed additive form of the R5G5B5A1 encoder for byte-valued channels. -/
theorem encode_r5g5b5a1_eq (p : Pixel) (hr : p.r < 256) (hg : p.g < 256)
    (hb : p.b < 256) (ha : p.a < 256) :
    encode_r5g5b5a1 p =
      p.r * 31 / 255 * 2 ^ 11 + p.g * 31 / 255 * 2 ^ 6 +
        p.b * 31 / 255 * 2 ^ 1 + p.a * 1 / 255 := by
  unfold encode_r5g5b5a1
  rw [Nat.shiftLeft_eq, Nat.shiftLeft_eq, Nat.shiftLeft_eq]
  rw [or_eq_add (x := p.r * 31 / 255 * 2 ^ 11) (y := p.g * 31 / 255 * 2 ^ 6)
      (k := 11) (by omega) (by omega),
    or_eq_add (x := p.r * 31 / 255 * 2 ^ 11 + p.g * 31 / 255 * 2 ^ 6)
      (y := p.b * 31 / 255 * 2 ^ 1) (k := 6) (by omega) (by omega),
    or_eq_add
      (x := p.r * 31 / 255 * 2 ^ 11 + p.g * 31 / 255 * 2 ^ 6 +
        p.b * 31 / 255 * 2 ^ 1)
      (y := p.a * 1 / 255) (k := 1) (by omega) (by omega)]

/-- Closed additive form of the R4G4B4A4 encoder for byte-valued channels. -/
theorem encode_r4g4b4a4_eq (p : Pixel) (hr : p.r < 256) (hg : p.g < 256)
    (hb : p.b < 256) (ha : p.a < 256) :
    encode_r4g4b4a4 p =
      p.r * 15 / 255 * 2 ^ 12 + p.g * 15 / 255 * 2 ^ 8 +
        p.b * 15 / 255 * 2 ^ 4 + p.a * 15 / 255 := by
  unfold encode_r4g4b4a4
  rw [Nat.shiftLeft_eq, Nat.shiftLeft_eq, Nat.shiftLeft_eq]
  rw [or_eq_add (x := p.r * 15 / 255 * 2 ^ 12) (y := p.g * 15 / 255 * 2 ^ 8)
      (k := 12) (by omega) (by omega),
    or_eq_add (x := p.r * 15 / 255 * 2 ^ 12 + p.g * 15 / 255 * 2 ^ 8)
      (y := p.b * 15 / 255 * 2 ^ 4) (k := 8) (by omega) (by omega),
    or_eq_add
      (x := p.r * 15 / 255 * 2 ^ 12 + p.g * 15 / 255 * 2 ^ 8 +
        p.b * 15 / 255 * 2 ^ 4)
      (y := p.a * 15 / 255) (k := 4) (by omega) (by omega)]

/-- Closed additive form of the R5G6B5 encoder for byte-valued channels. -/
theorem encode_r5g6b5_eq (p : Pixel) (hr : p.r < 256) (hg : p.g < 256)
    (hb : p.b < 256) :
    encode_r5g6b5 p =
      p.r * 31 / 255 * 2 ^ 11 + p.g * 63 / 255 * 2 ^ 5 + p.b * 31 / 255 := by
  unfold encode_r5g6b5
  rw [Nat.shiftLeft_eq, Nat.shiftLeft_eq]
  rw [or_eq_add (x := p.r * 31 / 255 * 2 ^ 11) (y := p.g * 63 / 255 * 2 ^ 5)
      (k := 11) (by omega) (by omega),
    or_eq_add (x := p.r * 31 / 255 * 2 ^ 11 + p.g * 63 / 255 * 2 ^ 5)
      (y := p.b * 31 / 255) (k := 5) (by omega) (by omega)]

/-- C10: when encoding R5G5B5A1, a pixel whose alpha is below 255 gets alpha
bit 0 and decodes back to alpha 0; alpha exactly 255 round-trips to 255. -/
theorem C10_r5g5b5a1_alpha (p : Pixel) (hr : p.r < 256) (hg : p.g < 256)
    (hb : p.b < 256) (ha : p.a < 256) :
    (p.a < 255 → encode_r5g5b5a1 p % 2 = 0 ∧
      (decode_r5g5b5a1 (encode_r5g5b5a1 p)).a = 0) ∧
    (p.a = 255 → encode_r5g5b5a1 p % 2 = 1 ∧
      (decode_r5g5b5a1 (encode_r5g5b5a1 p)).a = 255) := by
  have he := encode_r5g5b5a1_eq p hr hg hb ha
  have hd := decode_r5g5b5a1_a (encode_r5g5b5a1 p)
  rw [he] at hd
  rw [he]
  constructor <;> intro h <;> exact ⟨by omega, by rw [hd]; omega⟩

/-- Concrete instance of C10: a half-transparent pixel becomes fully
transparent after an R5G5B5A1 round trip. -/
theorem C10_r5g5b5a1_alpha_witness :
    (decode_r5g5b5a1 (encode_r5g5b5a1 ⟨10, 20, 30, 128⟩)).a = 0 :=
  ((C10_r5g5b5a1_alpha ⟨10, 20, 30, 128⟩ (by decide) (by decide) (by decide)
    (by decide)).1 (by decide)).2

/-- C2 counterexample: a well-formed package with an overflowing payload-size
computation on which `write_texture_package` succeeds instead of failing
with `UnsupportedDimensions`, the size having wrapped to 0. -/
theorem C2_counterexample :
    (∃ t ∈ overflowPackage.textures,
      2 ^ 32 ≤ t.data.width * t.data.height * bpp t.meta.texture_format ∧
        t.data.pixels.length = t.data.width * t.data.height) ∧
    write_texture_package overflowPackage = .ok (writeBytes overflowPackage) ∧
    data_size .R8G8B8A8 65536 65536 = 0 := by
  refine ⟨⟨⟨⟨0, 0, 0, 0, 0, .R8G8B8A8⟩,
    ⟨65536, 65536, List.replicate (65536 * 65536) ⟨0, 0, 0, 0⟩⟩⟩,
    List.mem_singleton.mpr rfl, ?_, ?_⟩, rfl, ?_⟩
  · show 2 ^ 32 ≤ 65536 * 65536 * bpp .R8G8B8A8
    norm_num [bpp]
  · show (List.replicate (65536 * 65536) (⟨0, 0, 0, 0⟩ : Pixel)).length =
      65536 * 65536
    exact List.length_replicate _ _
  · norm_num [data_size, bpp]

/-- C2 amended: `write_texture_package` never fails (there is no
`UnsupportedDimensions` error in the code); an overflowing
`width * height * bpp` instead wraps modulo 2^32, so the recorded payload
size is strictly smaller than the true byte count. -/
theorem C2_amended_overflow_wraps :
    (∀ p : TexturePackage, ∃ bytes, write_texture_package p = .ok bytes) ∧
    (∀ (format : TextureFormat) (w h : Nat),
      2 ^ 32 ≤ w * h * bpp format →
        data_size format w h < w * h * bpp format) := by
  constructor
  · intro p
    exact ⟨writeBytes p, rfl⟩
  · intro format w h hov
    unfold data_size
    exact Nat.lt_of_lt_of_le (Nat.mod_lt _ (by norm_num)) hov

/-- Concrete instance of the amended C2: the 65536 × 65536 R8G8B8A8 size
computation wraps below its true value. -/
theorem C2_amended_witness :
    data_size .R8G8B8A8 65536 65536 < 65536 * 65536 * bpp .R8G8B8A8 :=
  C2_amended_overflow_wraps.2 .R8G8B8A8 65536 65536 (by norm_num [bpp])

/-! ## Row and flip lemmas -/

/-- `toRows` always produces `h` rows. -/
theorem toRows_length {α : Type} :
    ∀ (h w : Nat) (l : List α), (toRows h w l).length = h := by
  intro h
  induction h with
  | zero => intro w l; rfl
  | succ hh ih => intro w l; simp [toRows, ih]

/-- Every row has length `w` when the list has the full `h * w` elements. -/
theorem toRows_row_length {α : Type} :
    ∀ (h w : Nat) (l : List α), l.length = h * w →
      ∀ row ∈ toRows h w l, row.length = w := by
  intro h
  induction h with
  | zero => intro w l _ row hr; simp [toRows] at hr
  | succ hh ih =>
    intro w l hl row hr
    rw [Nat.succ_mul] at hl
    simp only [toRows, List.mem_cons] at hr
    rcases hr with hr | hr
    · subst hr
      rw [List.length_take]
      omega
    · exact ih w (l.drop w) (by rw [List.length_drop]; omega) row hr

/-- Flattening the rows recovers the original list. -/
theorem toRows_flatten {α : Type} :
    ∀ (h w : Nat) (l : List α), l.length = h * w →
      (toRows h w l).flatten = l := by
  intro h
  induction h with
  | zero =>
    intro w l hl
    rw [Nat.zero_mul] at hl
    rw [List.length_eq_zero] at hl
    rw [hl]
    rfl
  | succ hh ih =>
    intro w l hl
    rw [Nat.succ_mul] at hl
    simp only [toRows, List.flatten_cons]
    rw [ih w (l.drop w) (by rw [List.length_drop]; omega)]
    exact List.take_append_drop w l

/-- `toRows` splits a flattened uniform row list back into its rows. -/
theorem toRows_of_flatten {α : Type} :
    ∀ (rs : List (List α)) (w : Nat), (∀ r ∈ rs, r.length = w) →
      toRows rs.length w rs.flatten = rs := by
  intro rs
  induction rs with
  | nil => intro w _; rfl
  | cons r rest ih =>
    intro w hw
    have hr : r.length = w := hw r (List.mem_cons_self r rest)
    simp only [List.length_cons, toRows, List.flatten_cons]
    rw [← hr, List.take_left, List.drop_left,
      ih r.length (fun q hq => (hw q (List.mem_cons_of_mem r hq)).trans hr.symm)]

/-- `toRows` commutes with mapping a function over the elements. -/
theorem toRows_map {α β : Type} (f : α → β) :
    ∀ (h w : Nat) (l : List α),
      toRows h w (l.map f) = (toRows h w l).map (List.map f) := by
  intro h
  induction h with
  | zero => intro w l; rfl
  | succ hh ih =>
    intro w l
    simp only [toRows, List.map_cons, ih, ← List.map_take, ← List.map_drop]

/-- Vertical flipping commutes with mapping a function over the pixels. -/
theorem flipPixels_map (f : Pixel → Pixel) (w h : Nat) (l : List Pixel) :
    flipPixels w h (l.map f) = (flipPixels w h l).map f := by
  unfold flipPixels
  rw [toRows_map, ← List.map_reverse, ← List.map_flatten]

/-- Vertical flipping preserves the pixel count. -/
theorem flipPixels_length (w h : Nat) (l : List Pixel) (hl : l.length = h * w) :
    (flipPixels w h l).length = h * w := by
  unfold flipPixels
  rw [List.length_flatten, List.map_reverse, List.sum_reverse,
    ← List.length_flatten, toRows_flatten h w l hl, hl]

/-- Vertical flipping is involutive on full rasters. -/
theorem flipPixels_flipPixels (w h : Nat) (l : List Pixel)
    (hl : l.length = h * w) : flipPixels w h (flipPixels w h l) = l := by
  unfold flipPixels
  have hrows : ∀ r ∈ (toRows h w l).reverse, r.length = w := fun r hr =>
    toRows_row_length h w l hl r (List.mem_reverse.mp hr)
  have hlen : ((toRows h w l).reverse).length = h := by
    rw [List.length_reverse, toRows_length]
  have hsplit := toRows_of_flatten ((toRows h w l).reverse) w hrows
  rw [hlen] at hsplit
  rw [hsplit, List.reverse_reverse, toRows_flatten h w l hl]

/-! ## Byte-segment lemmas -/

/-- Binding a successful `Except` computation applies the continuation. -/
theorem except_bind_ok {ε α β : Type} (a : α) (f : α → Except ε β) :
    (Except.ok a >>= f : Except ε β) = f a := rfl

/-- Binding a failed `Except` computation propagates the error. -/
theorem except_bind_err {ε α β : Type} (e : ε) (f : α → Except ε β) :
    (Except.error e >>= f : Except ε β) = .error e := rfl

/-- An occurrence of a concatenation splits into two occurrences. -/
theorem SegAt_split {buffer : List Nat} {pos : Nat} {s1 s2 : List Nat}
    (h : SegAt buffer pos (s1 ++ s2)) :
    SegAt buffer pos s1 ∧ SegAt buffer (pos + s1.length) s2 := by
  obtain ⟨pre, post, hb, hp⟩ := h
  constructor
  · exact ⟨pre, s2 ++ post, by rw [hb]; simp [List.append_assoc], hp⟩
  · exact ⟨pre ++ s1, post, by rw [hb]; simp [List.append_assoc],
      by rw [List.length_append, hp]⟩

/-- `readExact` at a known segment returns exactly that segment. -/
theorem readExact_of_SegAt {buffer : List Nat} {pos : Nat} {seg : List Nat}
    (h : SegAt buffer pos seg) :
    readExact buffer pos seg.length = .ok seg := by
  obtain ⟨pre, post, hb, hp⟩ := h
  have hlen : buffer.length = pos + seg.length + post.length := by
    rw [hb, List.length_append, List.length_append, hp]
  unfold readExact
  rw [if_pos (by omega)]
  rw [hb, List.append_assoc, ← hp, List.drop_left, List.take_left]

/-- Reading back a little-endian 32-bit encoding recovers the value. -/
theorem fromLE_le32 (v : Nat) (hv : v < 2 ^ 32) : fromLE (le32 v) = v := by
  unfold fromLE le32
  simp only [List.foldr]
  omega

/-- A `le32` segment always has four bytes. -/
theorem le32_length (v : Nat) : (le32 v).length = 4 := rfl

/-- An `i32le` segment always has four bytes. -/
theorem i32le_length (v : Int) : (i32le v).length = 4 := rfl

/-- `readU32` at a known `le32` segment returns the encoded value. -/
theorem readU32_of_SegAt {buffer : List Nat} {pos : Nat} {v : Nat}
    (h : SegAt buffer pos (le32 v)) (hv : v < 2 ^ 32) :
    readU32 buffer pos = .ok v := by
  have hr := readExact_of_SegAt h
  rw [le32_length] at hr
  unfold readU32
  rw [hr]
  show Except.ok (fromLE (le32 v)) = Except.ok v
  rw [fromLE_le32 v hv]

/-- Reinterpreting the two's-complement encoding recovers an in-range i32. -/
theorem toI32_i32le (v : Int) (hlo : -2 ^ 31 ≤ v) (hhi : v < 2 ^ 31) :
    toI32 ((v % 2 ^ 32).toNat) = v := by
  unfold toI32
  have hmod : 0 ≤ v % 2 ^ 32 := Int.emod_nonneg v (by norm_num)
  have hmlt : v % 2 ^ 32 < 2 ^ 32 := Int.emod_lt_of_pos v (by norm_num)
  have hcases : v % 2 ^ 32 = v ∨ v % 2 ^ 32 = v + 2 ^ 32 := by
    rcases Int.le_or_lt 0 v with hv | hv
    · left
      exact Int.emod_eq_of_lt hv (by omega)
    · right
      have h1 : (v + 2 ^ 32 * 1) % 2 ^ 32 = v % 2 ^ 32 :=
        Int.add_mul_emod_self_left v (2 ^ 32) 1
      have h2 : (v + 2 ^ 32) % 2 ^ 32 = v + 2 ^ 32 :=
        Int.emod_eq_of_lt (by omega) (by omega)
      omega
  split <;> omega

/-- `readI32` at a known `i32le` segment returns the encoded value. -/
theorem readI32_of_SegAt {buffer : List Nat} {pos : Nat} {v : Int}
    (h : SegAt buffer pos (i32le v)) (hlo : -2 ^ 31 ≤ v) (hhi : v < 2 ^ 31) :
    readI32 buffer pos = .ok v := by
  have hu : readU32 buffer pos = .ok ((v % 2 ^ 32).toNat) := by
    apply readU32_of_SegAt h
    have hmod : 0 ≤ v % 2 ^ 32 := Int.emod_nonneg v (by norm_num)
    have hmlt : v % 2 ^ 32 < 2 ^ 32 := Int.emod_lt_of_pos v (by norm_num)
    omega
  unfold readI32
  rw [hu]
  exact congrArg Except.ok (toI32_i32le v hlo hhi)

/-- `readU32` fails when fewer than four bytes remain. -/
theorem readU32_err (buffer : List Nat) (pos : Nat)
    (h : buffer.length < pos + 4) :
    readU32 buffer pos = .error .malformedContainer := by
  unfold readU32 readExact
  rw [if_neg (by omega)]
  rfl

/-- Parsing a format discriminant written by the writer recovers the format. -/
theorem parseTextureFormat_code (f : TextureFormat) :
    parseTextureFormat f.code = .ok f := by
  cases f <;> rfl

/-- A header record always has 36 bytes. -/
theorem headerRecordBytes_length (t : Texture) (dataOff : Nat) :
    (headerRecordBytes t dataOff).length = 36 := rfl

/-- The header table has 36 bytes per texture. -/
theorem writeHeaders_length :
    ∀ (ts : List Texture) (dataOff : Nat),
      (writeHeaders ts dataOff).length = 36 * ts.length := by
  intro ts
  induction ts with
  | nil => intro dataOff; rfl
  | cons t rest ih =>
    intro dataOff
    simp only [writeHeaders, List.length_append, headerRecordBytes_length, ih,
      List.length_cons, Nat.mul_succ]
    omega

/-! ## Payload encode–decode lemmas -/

/-- Each encoded pixel occupies exactly `bpp format` bytes. -/
theorem encodePixelBytes_length (format : TextureFormat) (p : Pixel) :
    (encodePixelBytes format p).length = bpp format := by
  cases format <;> rfl

/-- Length of a flattened map with constant block size. -/
theorem length_flatten_map {α : Type} (f : α → List Nat) (k : Nat)
    (hf : ∀ x, (f x).length = k) :
    ∀ l : List α, ((l.map f).flatten).length = k * l.length := by
  intro l
  induction l with
  | nil => simp
  | cons x xs ih =>
    simp only [List.map_cons, List.flatten_cons, List.length_append, hf, ih,
      List.length_cons, Nat.mul_succ]
    omega

/-- Byte-pairing undoes the 16-bit little-endian encoding, up to the 16-bit
truncation of each word. -/
theorem toShorts_flatten_le16 :
    ∀ ss : List Nat,
      toShorts ((ss.map le16).flatten) = ss.map (fun s => s % 65536) := by
  intro ss
  induction ss with
  | nil => rfl
  | cons s rest ih =>
    simp only [List.map_cons, List.flatten_cons, le16, List.cons_append,
      List.nil_append, List.append_eq, toShorts]
    rw [ih]
    congr 1
    omega

/-- Truncation to 16 bits is the identity on genuine 16-bit words. -/
theorem map_mod65536_of_lt :
    ∀ ss : List Nat, (∀ s ∈ ss, s < 65536) →
      ss.map (fun s => s % 65536) = ss := by
  intro ss
  induction ss with
  | nil => intro _; rfl
  | cons s rest ih =>
    intro hb
    simp only [List.map_cons]
    rw [Nat.mod_eq_of_lt (hb s (List.mem_cons_self s rest)),
      ih (fun q hq => hb q (List.mem_cons_of_mem s hq))]

/-- Grouping bytes back into quadruples undoes the R8G8B8A8 byte emission. -/
theorem toPixels4_flatten :
    ∀ ps : List Pixel,
      toPixels4 ((ps.map (fun p => [p.r, p.g, p.b, p.a])).flatten) = ps := by
  intro ps
  induction ps with
  | nil => rfl
  | cons p rest ih =>
    simp only [List.map_cons, List.flatten_cons, List.cons_append,
      List.nil_append, List.append_eq, toPixels4]
    rw [ih]

/-- The R5G5B5A1 encoder produces 16-bit words. -/
theorem encode_r5g5b5a1_lt (p : Pixel) (hr : p.r < 256) (hg : p.g < 256)
    (hb : p.b < 256) (ha : p.a < 256) : encode_r5g5b5a1 p < 65536 := by
  rw [encode_r5g5b5a1_eq p hr hg hb ha]
  omega

/-- The R4G4B4A4 encoder produces 16-bit words. -/
theorem encode_r4g4b4a4_lt (p : Pixel) (hr : p.r < 256) (hg : p.g < 256)
    (hb : p.b < 256) (ha : p.a < 256) : encode_r4g4b4a4 p < 65536 := by
  rw [encode_r4g4b4a4_eq p hr hg hb ha]
  omega

/-- The R5G6B5 encoder produces 16-bit words. -/
theorem encode_r5g6b5_lt (p : Pixel) (hr : p.r < 256) (hg : p.g < 256)
    (hb : p.b < 256) : encode_r5g6b5 p < 65536 := by
  rw [encode_r5g6b5_eq p hr hg hb]
  omega

/-- Decoding a flipped, 16-bit-encoded raster and flipping back applies the
per-pixel round trip in place. -/
theorem shorts_roundtrip (px : List Pixel) (w h : Nat) (enc : Pixel → Nat)
    (dec : Nat → Pixel) (hlen : px.length = h * w)
    (hb : ∀ p ∈ px, enc p < 65536) :
    ((toShorts
        (((flipPixels w h px).map (fun p => le16 (enc p))).flatten)).map
      dec).length = h * w ∧
    flipPixels w h
        ((toShorts
          (((flipPixels w h px).map (fun p => le16 (enc p))).flatten)).map dec)
      = px.map (fun p => dec (enc p)) := by
  have h1 : (flipPixels w h px).map (fun p => le16 (enc p)) =
      ((flipPixels w h px).map enc).map le16 := by
    rw [List.map_map]
    rfl
  have hbf : ∀ s ∈ (flipPixels w h px).map enc, s < 65536 := by
    intro s hs
    rw [List.mem_map] at hs
    obtain ⟨p, hp, hps⟩ := hs
    exact hps ▸ hb p (mem_flipPixels hp)
  have h2 : (toShorts
      (((flipPixels w h px).map (fun p => le16 (enc p))).flatten)).map dec =
      (flipPixels w h px).map (fun p => dec (enc p)) := by
    rw [h1, toShorts_flatten_le16, map_mod65536_of_lt _ hbf, List.map_map]
    rfl
  constructor
  · rw [h2, List.length_map, flipPixels_length w h px hlen]
  · rw [h2, flipPixels_map, flipPixels_flipPixels w h px hlen]

/-- Pure decode of an encoded raster: the dimension check passes and the
result is the original raster with each pixel replaced by its encode–decode
round trip, the two vertical flips cancelling. -/
theorem decodePixelData_encode (img : Image) (format : TextureFormat)
    (hlen : img.pixels.length = img.width * img.height)
    (hvalid : ∀ p ∈ img.pixels,
      p.r < 256 ∧ p.g < 256 ∧ p.b < 256 ∧ p.a < 256) :
    decodePixelData (encodeTextureData img format) img.width img.height format
      = .ok ⟨img.width, img.height, img.pixels.map (pixelRound format)⟩ := by
  obtain ⟨w, h, px⟩ := img
  dsimp only at hlen hvalid ⊢
  have hlen' : px.length = h * w := by rw [hlen, Nat.mul_comm]
  cases format with
  | R5G5B5A1 =>
    obtain ⟨hL, hF⟩ := shorts_roundtrip px w h encode_r5g5b5a1 decode_r5g5b5a1
      hlen' (fun p hp => encode_r5g5b5a1_lt p (hvalid p hp).1 (hvalid p hp).2.1
        (hvalid p hp).2.2.1 (hvalid p hp).2.2.2)
    show decodePixelData
        (((flipPixels w h px).map (fun p => le16 (encode_r5g5b5a1 p))).flatten)
        w h .R5G5B5A1 = _
    simp only [decodePixelData]
    rw [if_pos (by rw [hL]; exact Nat.mul_comm h w)]
    rw [hF]
    rfl
  | R4G4B4A4 =>
    obtain ⟨hL, hF⟩ := shorts_roundtrip px w h encode_r4g4b4a4 decode_r4g4b4a4
      hlen' (fun p hp => encode_r4g4b4a4_lt p (hvalid p hp).1 (hvalid p hp).2.1
        (hvalid p hp).2.2.1 (hvalid p hp).2.2.2)
    show decodePixelData
        (((flipPixels w h px).map (fun p => le16 (encode_r4g4b4a4 p))).flatten)
        w h .R4G4B4A4 = _
    simp only [decodePixelData]
    rw [if_pos (by rw [hL]; exact Nat.mul_comm h w)]
    rw [hF]
    rfl
  | R5G6B5 =>
    obtain ⟨hL, hF⟩ := shorts_roundtrip px w h encode_r5g6b5 decode_r5g6b5
      hlen' (fun p hp => encode_r5g6b5_lt p (hvalid p hp).1 (hvalid p hp).2.1
        (hvalid p hp).2.2.1)
    show decodePixelData
        (((flipPixels w h px).map (fun p => le16 (encode_r5g6b5 p))).flatten)
        w h .R5G6B5 = _
    simp only [decodePixelData]
    rw [if_pos (by rw [hL]; exact Nat.mul_comm h w)]
    rw [hF]
    rfl
  | R8G8B8A8 =>
    show decodePixelData
        (((flipPixels w h px).map (fun p => [p.r, p.g, p.b, p.a])).flatten)
        w h .R8G8B8A8 = _
    simp only [decodePixelData]
    rw [toPixels4_flatten (flipPixels w h px)]
    rw [if_pos (by rw [flipPixels_length w h px hlen']; exact Nat.mul_comm h w)]
    rw [flipPixels_flipPixels w h px hlen']
    have hid : px.map (pixelRound .R8G8B8A8) = px := by
      show px.map (fun p => p) = px
      exact List.map_id' px
    rw [hid]

/-- The writer emits exactly `width * height * bpp` payload bytes for a
consistent raster. -/
theorem encodeTextureData_length (img : Image) (format : TextureFormat)
    (hlen : img.pixels.length = img.width * img.height) :
    (encodeTextureData img format).length =
      img.width * img.height * bpp format := by
  unfold encodeTextureData
  rw [length_flatten_map (encodePixelBytes format) (bpp format)
      (encodePixelBytes_length format),
    flipPixels_length img.width img.height img.pixels
      (by rw [hlen, Nat.mul_comm])]
  ring

/-- Reading a texture payload through a pointer at which its encoded bytes
are stored yields the round-tripped raster. -/
theorem read_texture_data_seg (buffer : List Nat) (dataOff : Nat)
    (img : Image) (format : TextureFormat)
    (hseg : SegAt buffer dataOff (encodeTextureData img format))
    (hlen : img.pixels.length = img.width * img.height)
    (hvalid : ∀ p ∈ img.pixels,
      p.r < 256 ∧ p.g < 256 ∧ p.b < 256 ∧ p.a < 256)
    (hfit : img.width * img.height * bpp format < 2 ^ 32) :
    read_texture_data buffer dataOff img.width img.height format =
      .ok ⟨img.width, img.height, img.pixels.map (pixelRound format)⟩ := by
  have hsz : data_size format img.width img.height =
      (encodeTextureData img format).length := by
    unfold data_size
    rw [Nat.mod_eq_of_lt hfit, encodeTextureData_length img format hlen]
  unfold read_texture_data
  rw [hsz, readExact_of_SegAt hseg, except_bind_ok]
  exact decodePixelData_encode img format hlen hvalid

/-- Central payload lemma: decoding an encoded raster succeeds and applies
the per-pixel encode–decode round trip pixelwise. -/
theorem decode_encode_payload (img : Image) (format : TextureFormat)
    (hlen : img.pixels.length = img.width * img.height)
    (hvalid : ∀ p ∈ img.pixels,
      p.r < 256 ∧ p.g < 256 ∧ p.b < 256 ∧ p.a < 256)
    (hfit : img.width * img.height * bpp format < 2 ^ 32) :
    read_texture_data (encodeTextureData img format) 0 img.width img.height
      format = .ok ⟨img.width, img.height, img.pixels.map (pixelRound format)⟩ := by
  apply read_texture_data_seg _ _ _ _ _ hlen hvalid hfit
  exact ⟨[], [], by simp, rfl⟩

/-- C4: encoding a canonical raster in R8G8B8A8 and decoding the result
reproduces the raster exactly, the vertical flips on the two paths
cancelling out. -/
theorem C4_r8g8b8a8_exact_roundtrip (img : Image)
    (hlen : img.pixels.length = img.width * img.height)
    (hvalid : ∀ p ∈ img.pixels,
      p.r < 256 ∧ p.g < 256 ∧ p.b < 256 ∧ p.a < 256)
    (hfit : img.width * img.height * bpp .R8G8B8A8 < 2 ^ 32) :
    read_texture_data (encodeTextureData img .R8G8B8A8) 0 img.width img.height
      .R8G8B8A8 = .ok img := by
  rw [decode_encode_payload img .R8G8B8A8 hlen hvalid hfit]
  have hid : img.pixels.map (pixelRound .R8G8B8A8) = img.pixels := by
    show img.pixels.map (fun p => p) = img.pixels
    exact List.map_id' img.pixels
  rw [hid]

/-- Concrete instance of C4: a 2 × 1 R8G8B8A8 raster round-trips exactly. -/
theorem C4_r8g8b8a8_exact_roundtrip_witness :
    read_texture_data
      (encodeTextureData ⟨2, 1, [⟨1, 2, 3, 4⟩, ⟨250, 251, 252, 253⟩]⟩
        .R8G8B8A8) 0 2 1 .R8G8B8A8 =
      .ok ⟨2, 1, [⟨1, 2, 3, 4⟩, ⟨250, 251, 252, 253⟩]⟩ :=
  C4_r8g8b8a8_exact_roundtrip ⟨2, 1, [⟨1, 2, 3, 4⟩, ⟨250, 251, 252, 253⟩]⟩
    (by decide) (by decide) (by decide)

/-- Decoding an R5G5B5A1 word assembled from in-range channel fields
recovers each scaled field. -/
theorem decode_r5g5b5a1_parts (r5 g5 b5 a1 : Nat) (hr : r5 < 32)
    (hg : g5 < 32) (hb : b5 < 32) (ha : a1 < 2) :
    decode_r5g5b5a1 (r5 * 2 ^ 11 + g5 * 2 ^ 6 + b5 * 2 ^ 1 + a1) =
      ⟨r5 * 255 / 31, g5 * 255 / 31, b5 * 255 / 31, a1 * 255⟩ := by
  have e1 := shift_mask_eq (r5 * 2 ^ 11 + g5 * 2 ^ 6 + b5 * 2 ^ 1 + a1) 11 5
  have e2 := shift_mask_eq (r5 * 2 ^ 11 + g5 * 2 ^ 6 + b5 * 2 ^ 1 + a1) 6 5
  have e3 := shift_mask_eq (r5 * 2 ^ 11 + g5 * 2 ^ 6 + b5 * 2 ^ 1 + a1) 1 5
  have hx1 : (r5 * 2 ^ 11 + g5 * 2 ^ 6 + b5 * 2 ^ 1 + a1) / 2 ^ 11 % 2 ^ 5 =
      r5 := by omega
  have hx2 : (r5 * 2 ^ 11 + g5 * 2 ^ 6 + b5 * 2 ^ 1 + a1) / 2 ^ 6 % 2 ^ 5 =
      g5 := by omega
  have hx3 : (r5 * 2 ^ 11 + g5 * 2 ^ 6 + b5 * 2 ^ 1 + a1) / 2 ^ 1 % 2 ^ 5 =
      b5 := by omega
  have hx4 : (r5 * 2 ^ 11 + g5 * 2 ^ 6 + b5 * 2 ^ 1 + a1) % 2 = a1 := by omega
  unfold decode_r5g5b5a1
  rw [Nat.shiftRight_zero, Nat.and_one_is_mod]
  norm_num at e1 e2 e3 hx1 hx2 hx3 hx4 ⊢
  rw [e1, e2, e3, hx1, hx2, hx3, hx4]
  exact ⟨rfl, rfl, rfl, rfl⟩

/-- Decoding an R4G4B4A4 word assembled from in-range channel fields
recovers each scaled field. -/
theorem decode_r4g4b4a4_parts (r4 g4 b4 a4 : Nat) (hr : r4 < 16)
    (hg : g4 < 16) (hb : b4 < 16) (ha : a4 < 16) :
    decode_r4g4b4a4 (r4 * 2 ^ 12 + g4 * 2 ^ 8 + b4 * 2 ^ 4 + a4) =
      ⟨r4 * 255 / 15, g4 * 255 / 15, b4 * 255 / 15, a4 * 255 / 15⟩ := by
  have e1 := shift_mask_eq (r4 * 2 ^ 12 + g4 * 2 ^ 8 + b4 * 2 ^ 4 + a4) 12 4
  have e2 := shift_mask_eq (r4 * 2 ^ 12 + g4 * 2 ^ 8 + b4 * 2 ^ 4 + a4) 8 4
  have e3 := shift_mask_eq (r4 * 2 ^ 12 + g4 * 2 ^ 8 + b4 * 2 ^ 4 + a4) 4 4
  have e4 := shift_mask_eq (r4 * 2 ^ 12 + g4 * 2 ^ 8 + b4 * 2 ^ 4 + a4) 0 4
  have hx1 : (r4 * 2 ^ 12 + g4 * 2 ^ 8 + b4 * 2 ^ 4 + a4) / 2 ^ 12 % 2 ^ 4 =
      r4 := by omega
  have hx2 : (r4 * 2 ^ 12 + g4 * 2 ^ 8 + b4 * 2 ^ 4 + a4) / 2 ^ 8 % 2 ^ 4 =
      g4 := by omega
  have hx3 : (r4 * 2 ^ 12 + g4 * 2 ^ 8 + b4 * 2 ^ 4 + a4) / 2 ^ 4 % 2 ^ 4 =
      b4 := by omega
  have hx4 : (r4 * 2 ^ 12 + g4 * 2 ^ 8 + b4 * 2 ^ 4 + a4) % 2 ^ 4 = a4 := by
    omega
  rw [Nat.shiftRight_zero] at e4
  rw [Nat.pow_zero, Nat.div_one] at e4
  unfold decode_r4g4b4a4
  rw [Nat.shiftRight_zero]
  norm_num at e1 e2 e3 e4 hx1 hx2 hx3 hx4 ⊢
  rw [e1, e2, e3, e4, hx1, hx2, hx3, hx4]
  exact ⟨rfl, rfl, rfl, rfl⟩

/-- Decoding an R5G6B5 word assembled from in-range channel fields recovers
each scaled field, with alpha forced to 255. -/
theorem decode_r5g6b5_parts (r5 g6 b5 : Nat) (hr : r5 < 32) (hg : g6 < 64)
    (hb : b5 < 32) :
    decode_r5g6b5 (r5 * 2 ^ 11 + g6 * 2 ^ 5 + b5) =
      ⟨r5 * 255 / 31, g6 * 255 / 63, b5 * 255 / 31, 255⟩ := by
  have e1 := shift_mask_eq (r5 * 2 ^ 11 + g6 * 2 ^ 5 + b5) 11 5
  have e2 := shift_mask_eq (r5 * 2 ^ 11 + g6 * 2 ^ 5 + b5) 5 6
  have e3 := shift_mask_eq (r5 * 2 ^ 11 + g6 * 2 ^ 5 + b5) 0 5
  have hx1 : (r5 * 2 ^ 11 + g6 * 2 ^ 5 + b5) / 2 ^ 11 % 2 ^ 5 = r5 := by omega
  have hx2 : (r5 * 2 ^ 11 + g6 * 2 ^ 5 + b5) / 2 ^ 5 % 2 ^ 6 = g6 := by omega
  have hx3 : (r5 * 2 ^ 11 + g6 * 2 ^ 5 + b5) % 2 ^ 5 = b5 := by omega
  rw [Nat.shiftRight_zero] at e3
  rw [Nat.pow_zero, Nat.div_one] at e3
  unfold decode_r5g6b5
  rw [Nat.shiftRight_zero]
  norm_num at e1 e2 e3 hx1 hx2 hx3 ⊢
  rw [e1, e2, e3, hx1, hx2, hx3]
  exact ⟨rfl, rfl, rfl⟩

/-- Closed form of a full R5G5B5A1 pixel round trip. -/
theorem pixelRound_r5g5b5a1 (p : Pixel) (hr : p.r < 256) (hg : p.g < 256)
    (hb : p.b < 256) (ha : p.a < 256) :
    pixelRound .R5G5B5A1 p =
      ⟨p.r * 31 / 255 * 255 / 31, p.g * 31 / 255 * 255 / 31,
       p.b * 31 / 255 * 255 / 31, p.a * 1 / 255 * 255⟩ := by
  show decode_r5g5b5a1 (encode_r5g5b5a1 p) = _
  rw [encode_r5g5b5a1_eq p hr hg hb ha]
  exact decode_r5g5b5a1_parts (p.r * 31 / 255) (p.g * 31 / 255)
    (p.b * 31 / 255) (p.a * 1 / 255) (by omega) (by omega) (by omega) (by omega)

/-- Closed form of a full R4G4B4A4 pixel round trip. -/
theorem pixelRound_r4g4b4a4 (p : Pixel) (hr : p.r < 256) (hg : p.g < 256)
    (hb : p.b < 256) (ha : p.a < 256) :
    pixelRound .R4G4B4A4 p =
      ⟨p.r * 15 / 255 * 255 / 15, p.g * 15 / 255 * 255 / 15,
       p.b * 15 / 255 * 255 / 15, p.a * 15 / 255 * 255 / 15⟩ := by
  show decode_r4g4b4a4 (encode_r4g4b4a4 p) = _
  rw [encode_r4g4b4a4_eq p hr hg hb ha]
  exact decode_r4g4b4a4_parts (p.r * 15 / 255) (p.g * 15 / 255)
    (p.b * 15 / 255) (p.a * 15 / 255) (by omega) (by omega) (by omega)
    (by omega)

/-- Closed form of a full R5G6B5 pixel round trip. -/
theorem pixelRound_r5g6b5 (p : Pixel) (hr : p.r < 256) (hg : p.g < 256)
    (hb : p.b < 256) :
    pixelRound .R5G6B5 p =
      ⟨p.r * 31 / 255 * 255 / 31, p.g * 63 / 255 * 255 / 63,
       p.b * 31 / 255 * 255 / 31, 255⟩ := by
  show decode_r5g6b5 (encode_r5g6b5 p) = _
  rw [encode_r5g6b5_eq p hr hg hb]
  exact decode_r5g6b5_parts (p.r * 31 / 255) (p.g * 63 / 255)
    (p.b * 31 / 255) (by omega) (by omega) (by omega)

/-- Channelwise quantization error of an R5G5B5A1 round trip: up to 9 on the
5-bit channels, up to 255 on the 1-bit alpha. -/
theorem pixelRound_dist_r5g5b5a1 (p : Pixel) (hr : p.r < 256) (hg : p.g < 256)
    (hb : p.b < 256) (ha : p.a < 256) :
    Nat.dist p.r (pixelRound .R5G5B5A1 p).r ≤ 9 ∧
    Nat.dist p.g (pixelRound .R5G5B5A1 p).g ≤ 9 ∧
    Nat.dist p.b (pixelRound .R5G5B5A1 p).b ≤ 9 ∧
    Nat.dist p.a (pixelRound .R5G5B5A1 p).a ≤ 255 := by
  rw [pixelRound_r5g5b5a1 p hr hg hb ha]
  refine ⟨?_, ?_, ?_, ?_⟩ <;> simp only [Nat.dist] <;> omega

/-- Channelwise quantization error of an R4G4B4A4 round trip: up to the
quantization step 17 on every 4-bit channel. -/
theorem pixelRound_dist_r4g4b4a4 (p : Pixel) (hr : p.r < 256) (hg : p.g < 256)
    (hb : p.b < 256) (ha : p.a < 256) :
    Nat.dist p.r (pixelRound .R4G4B4A4 p).r ≤ 17 ∧
    Nat.dist p.g (pixelRound .R4G4B4A4 p).g ≤ 17 ∧
    Nat.dist p.b (pixelRound .R4G4B4A4 p).b ≤ 17 ∧
    Nat.dist p.a (pixelRound .R4G4B4A4 p).a ≤ 17 := by
  rw [pixelRound_r4g4b4a4 p hr hg hb ha]
  refine ⟨?_, ?_, ?_, ?_⟩ <;> simp only [Nat.dist] <;> omega

/-- Channelwise quantization error of an R5G6B5 round trip: up to 9 on the
5-bit channels, up to 4 on the 6-bit green, up to 255 on the absent alpha. -/
theorem pixelRound_dist_r5g6b5 (p : Pixel) (hr : p.r < 256) (hg : p.g < 256)
    (hb : p.b < 256) (ha : p.a < 256) :
    Nat.dist p.r (pixelRound .R5G6B5 p).r ≤ 9 ∧
    Nat.dist p.g (pixelRound .R5G6B5 p).g ≤ 4 ∧
    Nat.dist p.b (pixelRound .R5G6B5 p).b ≤ 9 ∧
    Nat.dist p.a (pixelRound .R5G6B5 p).a ≤ 255 := by
  rw [pixelRound_r5g6b5 p hr hg hb]
  refine ⟨?_, ?_, ?_, ?_⟩ <;> simp only [Nat.dist] <;> omega

/-- C3 counterexample: pixel value 74 in the 5-bit red channel of R5G5B5A1
comes back as 65 after an encode–decode round trip, an error of 9, which
exceeds the stated bound of 8 for a 5-bit channel. -/
theorem C3_counterexample :
    read_texture_data (encodeTextureData ⟨1, 1, [⟨74, 0, 0, 255⟩]⟩ .R5G5B5A1)
        0 1 1 .R5G5B5A1 = .ok ⟨1, 1, [⟨65, 0, 0, 255⟩]⟩ ∧
      8 < Nat.dist 74 65 := by
  constructor
  · decide
  · decide

/-- C3 amended: for the three reduced formats, each channel of a decoded
re-encoded raster differs from the original by at most 17 for 4-bit
channels, 9 (not 8) for 5-bit channels, 4 for the 6-bit channel and 255 for
the 1-bit or absent alpha. -/
theorem C3_amended_quantization (img : Image) (format : TextureFormat)
    (hlen : img.pixels.length = img.width * img.height)
    (hvalid : ∀ p ∈ img.pixels,
      p.r < 256 ∧ p.g < 256 ∧ p.b < 256 ∧ p.a < 256)
    (hfit : img.width * img.height * bpp format < 2 ^ 32)
    (hform : format = .R5G5B5A1 ∨ format = .R4G4B4A4 ∨ format = .R5G6B5) :
    ∃ dec : Image,
      read_texture_data (encodeTextureData img format) 0 img.width img.height
          format = .ok dec ∧
      dec.width = img.width ∧ dec.height = img.height ∧
      dec.pixels.length = img.pixels.length ∧
      ∀ i : Nat,
        Nat.dist (img.pixels.getD i ⟨0, 0, 0, 0⟩).r
            (dec.pixels.getD i ⟨0, 0, 0, 0⟩).r ≤ (channelBounds format).1 ∧
        Nat.dist (img.pixels.getD i ⟨0, 0, 0, 0⟩).g
            (dec.pixels.getD i ⟨0, 0, 0, 0⟩).g ≤ (channelBounds format).2.1 ∧
        Nat.dist (img.pixels.getD i ⟨0, 0, 0, 0⟩).b
            (dec.pixels.getD i ⟨0, 0, 0, 0⟩).b ≤ (channelBounds format).2.2.1 ∧
        Nat.dist (img.pixels.getD i ⟨0, 0, 0, 0⟩).a
            (dec.pixels.getD i ⟨0, 0, 0, 0⟩).a ≤ (channelBounds format).2.2.2
      := by
  refine ⟨⟨img.width, img.height, img.pixels.map (pixelRound format)⟩,
    decode_encode_payload img format hlen hvalid hfit, rfl, rfl, by simp, ?_⟩
  intro i
  dsimp only
  by_cases hi : i < img.pixels.length
  · have hmap : i < (img.pixels.map (pixelRound format)).length := by
      rw [List.length_map]
      exact hi
    rw [List.getD_eq_getElem _ _ hi, List.getD_eq_getElem _ _ hmap,
      List.getElem_map]
    have hv := hvalid (img.pixels[i]) (List.getElem_mem hi)
    rcases hform with hf | hf | hf <;> subst hf
    · exact pixelRound_dist_r5g5b5a1 _ hv.1 hv.2.1 hv.2.2.1 hv.2.2.2
    · exact pixelRound_dist_r4g4b4a4 _ hv.1 hv.2.1 hv.2.2.1 hv.2.2.2
    · exact pixelRound_dist_r5g6b5 _ hv.1 hv.2.1 hv.2.2.1 hv.2.2.2
  · have hge : img.pixels.length ≤ i := Nat.le_of_not_lt hi
    have hge2 : (img.pixels.map (pixelRound format)).length ≤ i := by
      rw [List.length_map]
      exact hge
    rw [List.getD_eq_default _ _ hge, List.getD_eq_default _ _ hge2]
    rcases hform with hf | hf | hf <;> subst hf <;>
      exact ⟨by decide, by decide, by decide, by decide⟩

/-- Concrete instance of the amended C3 at a 1 × 1 R5G5B5A1 raster. -/
theorem C3_amended_quantization_witness :
    ∃ dec : Image,
      read_texture_data
          (encodeTextureData ⟨1, 1, [⟨200, 100, 50, 255⟩]⟩ .R5G5B5A1) 0 1 1
          .R5G5B5A1 = .ok dec ∧
      dec.width = 1 ∧ dec.height = 1 ∧ dec.pixels.length = 1 ∧
      ∀ i : Nat,
        Nat.dist (([⟨200, 100, 50, 255⟩] : List Pixel).getD i
            ⟨0, 0, 0, 0⟩).r
            (dec.pixels.getD i ⟨0, 0, 0, 0⟩).r ≤
          (channelBounds .R5G5B5A1).1 ∧
        Nat.dist (([⟨200, 100, 50, 255⟩] : List Pixel).getD i
            ⟨0, 0, 0, 0⟩).g
            (dec.pixels.getD i ⟨0, 0, 0, 0⟩).g ≤
          (channelBounds .R5G5B5A1).2.1 ∧
        Nat.dist (([⟨200, 100, 50, 255⟩] : List Pixel).getD i
            ⟨0, 0, 0, 0⟩).b
            (dec.pixels.getD i ⟨0, 0, 0, 0⟩).b ≤
          (channelBounds .R5G5B5A1).2.2.1 ∧
        Nat.dist (([⟨200, 100, 50, 255⟩] : List Pixel).getD i
            ⟨0, 0, 0, 0⟩).a
            (dec.pixels.getD i ⟨0, 0, 0, 0⟩).a ≤
          (channelBounds .R5G5B5A1).2.2.2 :=
  C3_amended_quantization ⟨1, 1, [⟨200, 100, 50, 255⟩]⟩ .R5G5B5A1 (by decide)
    (by decide) (by decide) (Or.inl rfl)

/-- Concrete instance of C6: decoding one R5G6B5 word yields alpha 255. -/
theorem C6_decode_r5g6b5_bit_layout_witness :
    decodePixelData [0, 0] 1 1 .R5G6B5 = .ok ⟨1, 1, [⟨0, 0, 0, 255⟩]⟩ ∧
      (⟨0, 0, 0, 255⟩ : Pixel).a = 255 :=
  ⟨by decide,
    C6_decode_r5g6b5_bit_layout.2 [0, 0] 1 1 ⟨1, 1, [⟨0, 0, 0, 255⟩]⟩
      (by decide) ⟨0, 0, 0, 255⟩ (by decide)⟩

/-! ## Container writer and reader correspondence -/

/-- Component-level closed form of the R4G4B4A4 encoder. -/
theorem encode_r4g4b4a4_mk (r g b a : Nat) (hr : r < 256) (hg : g < 256)
    (hb : b < 256) (ha : a < 256) :
    encode_r4g4b4a4 ⟨r, g, b, a⟩ =
      r * 15 / 255 * 2 ^ 12 + g * 15 / 255 * 2 ^ 8 + b * 15 / 255 * 2 ^ 4 +
        a * 15 / 255 :=
  encode_r4g4b4a4_eq ⟨r, g, b, a⟩ hr hg hb ha

/-- Component-level closed form of an R4G4B4A4 pixel round trip. -/
theorem pixelRound_r4g4b4a4_mk (r g b a : Nat) (hr : r < 256) (hg : g < 256)
    (hb : b < 256) (ha : a < 256) :
    pixelRound .R4G4B4A4 ⟨r, g, b, a⟩ =
      ⟨r * 15 / 255 * 255 / 15, g * 15 / 255 * 255 / 15,
       b * 15 / 255 * 255 / 15, a * 15 / 255 * 255 / 15⟩ :=
  pixelRound_r4g4b4a4 ⟨r, g, b, a⟩ hr hg hb ha

/-- Re-encoding an R4G4B4A4 round-tripped pixel gives the same word: the
4-bit quantization is idempotent because 255 = 15 × 17. -/
theorem encode_r4g4b4a4_pixelRound (p : Pixel) (hr : p.r < 256)
    (hg : p.g < 256) (hb : p.b < 256) (ha : p.a < 256) :
    encode_r4g4b4a4 (pixelRound .R4G4B4A4 p) = encode_r4g4b4a4 p := by
  obtain ⟨r, g, b, a⟩ := p
  dsimp only at hr hg hb ha
  rw [pixelRound_r4g4b4a4_mk r g b a hr hg hb ha]
  rw [encode_r4g4b4a4_mk (r * 15 / 255 * 255 / 15) (g * 15 / 255 * 255 / 15)
    (b * 15 / 255 * 255 / 15) (a * 15 / 255 * 255 / 15) (by omega) (by omega)
    (by omega) (by omega)]
  rw [encode_r4g4b4a4_mk r g b a hr hg hb ha]
  omega

/-- For the idempotent formats, re-encoding a round-tripped pixel emits the
same bytes. -/
theorem encodePixelBytes_pixelRound (format : TextureFormat) (p : Pixel)
    (hr : p.r < 256) (hg : p.g < 256) (hb : p.b < 256) (ha : p.a < 256)
    (hf : format = .R4G4B4A4 ∨ format = .R8G8B8A8) :
    encodePixelBytes format (pixelRound format p) = encodePixelBytes format p
    := by
  rcases hf with hf | hf <;> subst hf
  · show le16 (encode_r4g4b4a4 (pixelRound .R4G4B4A4 p)) =
      le16 (encode_r4g4b4a4 p)
    rw [encode_r4g4b4a4_pixelRound p hr hg hb ha]
  · rfl

/-- Re-encoding a round-tripped texture reproduces its payload bytes, for
the idempotent formats. -/
theorem encodeTextureData_roundTexture (t : Texture) (hv : validTexture t)
    (hf : t.meta.texture_format = .R4G4B4A4 ∨
      t.meta.texture_format = .R8G8B8A8) :
    encodeTextureData (roundTexture t).data t.meta.texture_format =
      encodeTextureData t.data t.meta.texture_format := by
  obtain ⟨hlen, hpix, hrest⟩ := hv
  unfold roundTexture encodeTextureData
  dsimp only
  rw [flipPixels_map, List.map_map]
  congr 1
  apply List.map_congr_left
  intro q hq
  have hqv := hpix q (mem_flipPixels hq)
  exact encodePixelBytes_pixelRound _ q hqv.1 hqv.2.1 hqv.2.2.1 hqv.2.2.2 hf

/-- One unfolding step of the payload region. -/
theorem writePayloads_cons (t : Texture) (ts : List Texture) :
    writePayloads (t :: ts) =
      encodeTextureData t.data t.meta.texture_format ++ writePayloads ts :=
  rfl

/-- The header table of a round-tripped package is byte-identical: metadata
and raster dimensions are preserved by parsing. -/
theorem writeHeaders_roundTexture :
    ∀ (ts : List Texture) (off : Nat),
      writeHeaders (ts.map roundTexture) off = writeHeaders ts off := by
  intro ts
  induction ts with
  | nil => intro off; rfl
  | cons t rest ih =>
    intro off
    simp only [List.map_cons, writeHeaders]
    rw [ih]
    rfl

/-- The payload region of a round-tripped package is byte-identical when
every texture uses one of the idempotent formats. -/
theorem writePayloads_roundTexture :
    ∀ ts : List Texture, (∀ t ∈ ts, validTexture t) →
      (∀ t ∈ ts, t.meta.texture_format = .R4G4B4A4 ∨
        t.meta.texture_format = .R8G8B8A8) →
      writePayloads (ts.map roundTexture) = writePayloads ts := by
  intro ts
  induction ts with
  | nil => intro _ _; rfl
  | cons t rest ih =>
    intro hv hf
    rw [List.map_cons, writePayloads_cons, writePayloads_cons]
    have h1 : encodeTextureData (roundTexture t).data
        (roundTexture t).meta.texture_format =
        encodeTextureData t.data t.meta.texture_format :=
      encodeTextureData_roundTexture t (hv t (List.mem_cons_self t rest))
        (hf t (List.mem_cons_self t rest))
    rw [h1, ih (fun q hq => hv q (List.mem_cons_of_mem t hq))
      (fun q hq => hf q (List.mem_cons_of_mem t hq))]

/-- Parsing one texture whose header record and payload lie at their
recorded positions returns the round-tripped texture. -/
theorem readTexture_spec (buffer : List Nat) (pos : Nat) (t : Texture)
    (dataOff : Nat)
    (hrec : SegAt buffer pos (headerRecordBytes t dataOff))
    (hseg : SegAt buffer dataOff
      (encodeTextureData t.data t.meta.texture_format))
    (hv : validTexture t) (hoff : dataOff < 2 ^ 32)
    (hfit : t.data.width * t.data.height * bpp t.meta.texture_format < 2 ^ 32) :
    readTexture buffer pos = .ok (roundTexture t) := by
  obtain ⟨hlen, hpix, hwlt, hhlt, hid, hc1, hc2, h101, h102, h141, h142,
    h181, h182⟩ := hv
  unfold headerRecordBytes at hrec
  obtain ⟨h8, hPtr⟩ := SegAt_split hrec
  obtain ⟨h7, hCode⟩ := SegAt_split h8
  obtain ⟨h6, hU18⟩ := SegAt_split h7
  obtain ⟨h5, hU14⟩ := SegAt_split h6
  obtain ⟨h4, hU10⟩ := SegAt_split h5
  obtain ⟨h3, hUc⟩ := SegAt_split h4
  obtain ⟨h2, hH⟩ := SegAt_split h3
  obtain ⟨hId, hW⟩ := SegAt_split h2
  have hW4 : SegAt buffer (pos + 4) (le32 t.data.width) := hW
  have hH8 : SegAt buffer (pos + 8) (le32 t.data.height) := hH
  have hUc12 : SegAt buffer (pos + 12) (i32le t.meta.unk_c) := hUc
  have hU1016 : SegAt buffer (pos + 16) (i32le t.meta.unk_10) := hU10
  have hU1420 : SegAt buffer (pos + 20) (i32le t.meta.unk_14) := hU14
  have hU1824 : SegAt buffer (pos + 24) (i32le t.meta.unk_18) := hU18
  have hCode28 : SegAt buffer (pos + 28) (le32 t.meta.texture_format.code) :=
    hCode
  have hPtr32 : SegAt buffer (pos + 32) (le32 dataOff) := hPtr
  have hcode32 : t.meta.texture_format.code < 2 ^ 32 := by
    cases t.meta.texture_format <;> norm_num [TextureFormat.code]
  unfold readTexture
  rw [readU32_of_SegAt hId hid, except_bind_ok,
    readU32_of_SegAt hW4 hwlt, except_bind_ok,
    readU32_of_SegAt hH8 hhlt, except_bind_ok,
    readI32_of_SegAt hUc12 hc1 hc2, except_bind_ok,
    readI32_of_SegAt hU1016 h101 h102, except_bind_ok,
    readI32_of_SegAt hU1420 h141 h142, except_bind_ok,
    readI32_of_SegAt hU1824 h181 h182, except_bind_ok,
    readU32_of_SegAt hCode28 hcode32, except_bind_ok,
    parseTextureFormat_code, except_bind_ok,
    readU32_of_SegAt hPtr32 hoff, except_bind_ok,
    read_texture_data_seg buffer dataOff t.data t.meta.texture_format hseg
      hlen hpix hfit, except_bind_ok]
  rfl

/-- One unfolding step of the header table. -/
theorem writeHeaders_cons (t : Texture) (ts : List Texture) (dataOff : Nat) :
    writeHeaders (t :: ts) dataOff =
      headerRecordBytes t dataOff ++
        writeHeaders ts
          ((dataOff +
            data_size t.meta.texture_format t.data.width t.data.height) %
            2 ^ 32) :=
  rfl

/-- Payload size of a cons cell. -/
theorem payloadSize_cons (t : Texture) (ts : List Texture) :
    payloadSize (t :: ts) =
      t.data.width * t.data.height * bpp t.meta.texture_format +
        payloadSize ts := by
  simp [payloadSize]

/-- Parsing `count` texture records whose header table and payload region
lie at their written positions returns the round-tripped textures. -/
theorem readTextures_spec :
    ∀ (ts : List Texture) (buffer : List Nat) (pos dataOff : Nat),
      SegAt buffer pos (writeHeaders ts dataOff) →
      SegAt buffer dataOff (writePayloads ts) →
      (∀ t ∈ ts, validTexture t) →
      dataOff + payloadSize ts < 2 ^ 32 →
      readTextures buffer pos ts.length = .ok (ts.map roundTexture) := by
  intro ts
  induction ts with
  | nil => intro buffer pos dataOff _ _ _ _; rfl
  | cons t rest ih =>
    intro buffer pos dataOff hH hP hv hfits
    have hvt := hv t (List.mem_cons_self t rest)
    have hsize_cons := payloadSize_cons t rest
    have hs_lt : t.data.width * t.data.height * bpp t.meta.texture_format <
        2 ^ 32 := by omega
    have hds : data_size t.meta.texture_format t.data.width t.data.height =
        t.data.width * t.data.height * bpp t.meta.texture_format :=
      Nat.mod_eq_of_lt hs_lt
    have hnext : (dataOff +
        data_size t.meta.texture_format t.data.width t.data.height) % 2 ^ 32 =
        dataOff + t.data.width * t.data.height * bpp t.meta.texture_format
        := by
      rw [hds]
      exact Nat.mod_eq_of_lt (by omega)
    rw [writeHeaders_cons] at hH
    obtain ⟨hrec, hHrest⟩ := SegAt_split hH
    have hHrest36 : SegAt buffer (pos + 36)
        (writeHeaders rest
          ((dataOff +
            data_size t.meta.texture_format t.data.width t.data.height) %
            2 ^ 32)) := hHrest
    rw [hnext] at hHrest36
    rw [writePayloads_cons] at hP
    obtain ⟨hpay, hPrest⟩ := SegAt_split hP
    have hplen : (encodeTextureData t.data t.meta.texture_format).length =
        t.data.width * t.data.height * bpp t.meta.texture_format :=
      encodeTextureData_length t.data t.meta.texture_format hvt.1
    have hPrest2 : SegAt buffer
        (dataOff + t.data.width * t.data.height * bpp t.meta.texture_format)
        (writePayloads rest) := by
      rw [← hplen]
      exact hPrest
    show readTextures buffer pos (rest.length + 1) = _
    rw [readTextures]
    rw [readTexture_spec buffer pos t dataOff hrec hpay
      ⟨hvt.1, hvt.2.1, hvt.2.2.1, hvt.2.2.2.1, hvt.2.2.2.2.1, hvt.2.2.2.2.2.1,
        hvt.2.2.2.2.2.2.1, hvt.2.2.2.2.2.2.2.1, hvt.2.2.2.2.2.2.2.2.1,
        hvt.2.2.2.2.2.2.2.2.2.1, hvt.2.2.2.2.2.2.2.2.2.2.1,
        hvt.2.2.2.2.2.2.2.2.2.2.2.1, hvt.2.2.2.2.2.2.2.2.2.2.2.2⟩
      (by omega) hs_lt, except_bind_ok]
    rw [ih buffer (pos + 36)
      (dataOff + t.data.width * t.data.height * bpp t.meta.texture_format)
      hHrest36 hPrest2 (fun q hq => hv q (List.mem_cons_of_mem t hq))
      (by omega), except_bind_ok]
    rfl

/-- C1 amended: for packages whose textures all use one of the idempotent
formats R4G4B4A4 or R8G8B8A8, parsing a written buffer succeeds and writing
the parsed package back reproduces the buffer byte for byte. -/
theorem C1_writer_roundtrip (p : TexturePackage)
    (hv : ∀ t ∈ p.textures, validTexture t)
    (hf : ∀ t ∈ p.textures, t.meta.texture_format = .R4G4B4A4 ∨
      t.meta.texture_format = .R8G8B8A8)
    (hfits : 32 + 36 * p.textures.length + payloadSize p.textures < 2 ^ 32) :
    ∃ p2 : TexturePackage,
      read_texture_package (writeBytes p) = .ok p2 ∧
      write_texture_package p2 = .ok (writeBytes p) := by
  obtain ⟨ts⟩ := p
  dsimp only at hv hf hfits ⊢
  cases ts with
  | nil => exact ⟨⟨[]⟩, by decide, by decide⟩
  | cons t rest =>
    have hbuf : writeBytes ⟨t :: rest⟩ =
        le32 ((t :: rest).length % 2 ^ 32) ++ le32 0x20 ++
          (List.replicate 24 0 ++
            writeHeaders (t :: rest)
              ((0x20 + (t :: rest).length % 2 ^ 32 * 36) % 2 ^ 32) ++
            writePayloads (t :: rest)) := rfl
    have hn36 : (t :: rest).length % 2 ^ 32 = (t :: rest).length :=
      Nat.mod_eq_of_lt (by omega)
    have hoff0 : (0x20 + (t :: rest).length * 36) % 2 ^ 32 =
        32 + 36 * (t :: rest).length := by omega
    have hbuf2 : writeBytes ⟨t :: rest⟩ =
        le32 ((t :: rest).length) ++ le32 0x20 ++
          (List.replicate 24 0 ++
            writeHeaders (t :: rest) (32 + 36 * (t :: rest).length) ++
            writePayloads (t :: rest)) := by
      rw [hbuf, hn36, hoff0]
    have hseg0 : SegAt (writeBytes ⟨t :: rest⟩) 0
        (le32 ((t :: rest).length)) := by
      refine ⟨[], le32 0x20 ++
        (List.replicate 24 0 ++
          writeHeaders (t :: rest) (32 + 36 * (t :: rest).length) ++
          writePayloads (t :: rest)), ?_, rfl⟩
      rw [hbuf2]
      simp [List.append_assoc]
    have hseg4 : SegAt (writeBytes ⟨t :: rest⟩) 4 (le32 0x20) := by
      refine ⟨le32 ((t :: rest).length),
        List.replicate 24 0 ++
          writeHeaders (t :: rest) (32 + 36 * (t :: rest).length) ++
          writePayloads (t :: rest), ?_, rfl⟩
      rw [hbuf2]
    have hsegH : SegAt (writeBytes ⟨t :: rest⟩) 32
        (writeHeaders (t :: rest) (32 + 36 * (t :: rest).length)) := by
      refine ⟨le32 ((t :: rest).length) ++ le32 0x20 ++ List.replicate 24 0,
        writePayloads (t :: rest), ?_, ?_⟩
      · rw [hbuf2]
        simp [List.append_assoc]
      · rfl
    have hsegP : SegAt (writeBytes ⟨t :: rest⟩)
        (32 + 36 * (t :: rest).length) (writePayloads (t :: rest)) := by
      refine ⟨le32 ((t :: rest).length) ++ le32 0x20 ++
        (List.replicate 24 0 ++
          writeHeaders (t :: rest) (32 + 36 * (t :: rest).length)), [], ?_, ?_⟩
      · rw [hbuf2]
        simp [List.append_assoc]
      · simp [List.length_append, writeHeaders_length, le32_length]
        omega
    refine ⟨⟨(t :: rest).map roundTexture⟩, ?_, ?_⟩
    · unfold read_texture_package
      rw [readU32_of_SegAt hseg0 (by omega), except_bind_ok,
        readU32_of_SegAt hseg4 (by norm_num), except_bind_ok,
        readTextures_spec (t :: rest) (writeBytes ⟨t :: rest⟩) 32
          (32 + 36 * (t :: rest).length) hsegH hsegP hv (by omega),
        except_bind_ok]
      rfl
    · have hkey : writeBytes ⟨(t :: rest).map roundTexture⟩ =
          writeBytes ⟨t :: rest⟩ := by
        have h1 : writeBytes ⟨(t :: rest).map roundTexture⟩ =
            le32 (((t :: rest).map roundTexture).length % 2 ^ 32) ++
              le32 0x20 ++
              (List.replicate 24 0 ++
                writeHeaders ((t :: rest).map roundTexture)
                  ((0x20 + ((t :: rest).map roundTexture).length % 2 ^ 32 *
                    36) % 2 ^ 32) ++
                writePayloads ((t :: rest).map roundTexture)) := rfl
        rw [h1, List.length_map, writeHeaders_roundTexture,
          writePayloads_roundTexture (t :: rest) hv hf, ← hbuf]
      show Except.ok (writeBytes ⟨(t :: rest).map roundTexture⟩) =
        Except.ok (writeBytes ⟨t :: rest⟩)
      rw [hkey]

/-- Concrete instance of the amended C1: a one-texture R4G4B4A4 package
round-trips byte for byte. -/
theorem C1_writer_roundtrip_witness :
    ∃ p2 : TexturePackage,
      read_texture_package
        (writeBytes ⟨[⟨⟨10, -1, 5, 7, 8, .R4G4B4A4⟩,
          ⟨1, 1, [⟨17, 34, 51, 255⟩]⟩⟩]⟩) = .ok p2 ∧
      write_texture_package p2 =
        .ok (writeBytes ⟨[⟨⟨10, -1, 5, 7, 8, .R4G4B4A4⟩,
          ⟨1, 1, [⟨17, 34, 51, 255⟩]⟩⟩]⟩) :=
  C1_writer_roundtrip
    ⟨[⟨⟨10, -1, 5, 7, 8, .R4G4B4A4⟩, ⟨1, 1, [⟨17, 34, 51, 255⟩]⟩⟩]⟩
    (by unfold validTexture; decide) (by decide) (by decide)

/-- C1 counterexample: a buffer produced by the writer from an R5G5B5A1
package parses back with red 9 quantized to 8, and re-writing produces a
different buffer (the stored word drops from 0x0801 to 0x0001). -/
theorem C1_counterexample :
    read_texture_package
        (writeBytes ⟨[⟨⟨1, 0, 0, 0, 0, .R5G5B5A1⟩,
          ⟨1, 1, [⟨9, 0, 0, 255⟩]⟩⟩]⟩) =
      .ok ⟨[⟨⟨1, 0, 0, 0, 0, .R5G5B5A1⟩, ⟨1, 1, [⟨8, 0, 0, 255⟩]⟩⟩]⟩ ∧
    writeBytes ⟨[⟨⟨1, 0, 0, 0, 0, .R5G5B5A1⟩, ⟨1, 1, [⟨8, 0, 0, 255⟩]⟩⟩]⟩ ≠
      writeBytes ⟨[⟨⟨1, 0, 0, 0, 0, .R5G5B5A1⟩, ⟨1, 1, [⟨9, 0, 0, 255⟩]⟩⟩]⟩
    := by
  constructor
  · decide
  · decide

/-- The `i`-th record of the header table, with its cumulative payload
pointer, when no offset computation wraps. -/
theorem writeHeaders_take_drop :
    ∀ (ts : List Texture) (off i : Nat) (hi : i < ts.length),
      off + payloadSize ts < 2 ^ 32 →
      ((writeHeaders ts off).drop (36 * i)).take 36 =
        headerRecordBytes (ts.get ⟨i, hi⟩) (off + payloadSize (ts.take i))
    := by
  intro ts
  induction ts with
  | nil => intro off i hi; exact absurd hi (by simp)
  | cons t rest ih =>
    intro off i hi hfits
    have hsize_cons := payloadSize_cons t rest
    have hs_lt : t.data.width * t.data.height * bpp t.meta.texture_format <
        2 ^ 32 := by omega
    have hds : data_size t.meta.texture_format t.data.width t.data.height =
        t.data.width * t.data.height * bpp t.meta.texture_format :=
      Nat.mod_eq_of_lt hs_lt
    have hnext : (off +
        data_size t.meta.texture_format t.data.width t.data.height) % 2 ^ 32 =
        off + t.data.width * t.data.height * bpp t.meta.texture_format := by
      rw [hds]
      exact Nat.mod_eq_of_lt (by omega)
    cases i with
    | zero =>
      rw [writeHeaders_cons, Nat.mul_zero, List.drop_zero,
        ← headerRecordBytes_length t off, List.take_left]
      rfl
    | succ j =>
      rw [writeHeaders_cons]
      rw [show 36 * (j + 1) = (headerRecordBytes t off).length + 36 * j by
        rw [headerRecordBytes_length]; ring]
      rw [List.drop_append]
      have hj : j < rest.length := by
        simp only [List.length_cons] at hi
        omega
      rw [hnext]
      rw [ih (off + t.data.width * t.data.height * bpp t.meta.texture_format)
        j hj (by omega)]
      have htake : payloadSize ((t :: rest).take (j + 1)) =
          t.data.width * t.data.height * bpp t.meta.texture_format +
            payloadSize (rest.take j) := by
        rw [List.take_succ_cons]
        exact payloadSize_cons t (rest.take j)
      rw [htake]
      rw [Nat.add_assoc]
      rfl

/-- C7: the written buffer has the texture count at 0x00, the constant table
pointer 0x20 at 0x04, the 36-byte header records starting at 0x20, each
record carrying the payload pointer 0x20 + 36·count plus the sizes of all
preceding payloads, and the payload region following in texture order. -/
theorem C7_writer_layout (p : TexturePackage)
    (hfits : 32 + 36 * p.textures.length + payloadSize p.textures < 2 ^ 32) :
    (writeBytes p).take 4 = le32 p.textures.length ∧
    ((writeBytes p).drop 4).take 4 = le32 0x20 ∧
    (∀ i (hi : i < p.textures.length),
      ((writeBytes p).drop (32 + 36 * i)).take 36 =
        headerRecordBytes (p.textures.get ⟨i, hi⟩)
          (32 + 36 * p.textures.length + payloadSize (p.textures.take i))) ∧
    (writeBytes p).drop (32 + 36 * p.textures.length) =
      writePayloads p.textures := by
  obtain ⟨ts⟩ := p
  dsimp only at hfits ⊢
  cases ts with
  | nil =>
    refine ⟨rfl, rfl, ?_, rfl⟩
    intro i hi
    exact absurd hi (by simp)
  | cons t rest =>
    have hn36 : (t :: rest).length % 2 ^ 32 = (t :: rest).length :=
      Nat.mod_eq_of_lt (by omega)
    have hoff0 : (0x20 + (t :: rest).length * 36) % 2 ^ 32 =
        32 + 36 * (t :: rest).length := by omega
    have hbuf2 : writeBytes ⟨t :: rest⟩ =
        le32 ((t :: rest).length) ++ le32 0x20 ++
          (List.replicate 24 0 ++
            writeHeaders (t :: rest) (32 + 36 * (t :: rest).length) ++
            writePayloads (t :: rest)) := by
      rw [show writeBytes ⟨t :: rest⟩ =
        le32 ((t :: rest).length % 2 ^ 32) ++ le32 0x20 ++
          (List.replicate 24 0 ++
            writeHeaders (t :: rest)
              ((0x20 + (t :: rest).length % 2 ^ 32 * 36) % 2 ^ 32) ++
            writePayloads (t :: rest)) from rfl, hn36, hoff0]
    have hre : le32 ((t :: rest).length) ++ le32 0x20 ++
        (List.replicate 24 0 ++
          writeHeaders (t :: rest) (32 + 36 * (t :: rest).length) ++
          writePayloads (t :: rest)) =
        (le32 ((t :: rest).length) ++ le32 0x20 ++ List.replicate 24 0) ++
          (writeHeaders (t :: rest) (32 + 36 * (t :: rest).length) ++
            writePayloads (t :: rest)) := by
      simp [List.append_assoc]
    have h32 : (le32 ((t :: rest).length) ++ le32 0x20 ++
        List.replicate 24 0).length = 32 := by
      simp [List.length_append, le32_length]
    refine ⟨?_, ?_, ?_, ?_⟩
    · rw [hbuf2]
      rfl
    · rw [hbuf2]
      rfl
    · intro i hi
      rw [hbuf2, hre]
      rw [show (32 : Nat) + 36 * i =
        (le32 ((t :: rest).length) ++ le32 0x20 ++
          List.replicate 24 0).length + 36 * i from by rw [h32]]
      rw [List.drop_append]
      rw [List.drop_append_of_le_length
        (by rw [writeHeaders_length]; omega)]
      rw [List.take_append_of_le_length
        (by rw [List.length_drop, writeHeaders_length]; omega)]
      rw [writeHeaders_take_drop (t :: rest) (32 + 36 * (t :: rest).length) i
        hi (by omega)]
    · rw [hbuf2, hre]
      nth_rewrite 1 [show (32 : Nat) + 36 * (t :: rest).length =
        (le32 ((t :: rest).length) ++ le32 0x20 ++
          List.replicate 24 0).length + 36 * (t :: rest).length from by
        rw [h32]]
      rw [List.drop_append]
      nth_rewrite 1 [show 36 * (t :: rest).length =
        (writeHeaders (t :: rest) (32 + 36 * (t :: rest).length)).length from
        (writeHeaders_length (t :: rest) _).symm]
      rw [List.drop_left]

/-- Concrete instance of C7 on a one-texture package: count at 0x00, table
pointer at 0x04, the single record at 0x20 with payload pointer 0x44, and
the payload region at 0x44. -/
theorem C7_writer_layout_witness :
    (writeBytes ⟨[⟨⟨5, 0, 0, 0, 0, .R5G6B5⟩, ⟨1, 1, [⟨1, 2, 3, 4⟩]⟩⟩]⟩).take 4
        = le32 1 ∧
    ((writeBytes ⟨[⟨⟨5, 0, 0, 0, 0, .R5G6B5⟩,
        ⟨1, 1, [⟨1, 2, 3, 4⟩]⟩⟩]⟩).drop 32).take 36 =
      headerRecordBytes ⟨⟨5, 0, 0, 0, 0, .R5G6B5⟩, ⟨1, 1, [⟨1, 2, 3, 4⟩]⟩⟩ 68 ∧
    (writeBytes ⟨[⟨⟨5, 0, 0, 0, 0, .R5G6B5⟩,
        ⟨1, 1, [⟨1, 2, 3, 4⟩]⟩⟩]⟩).drop 68 =
      writePayloads [⟨⟨5, 0, 0, 0, 0, .R5G6B5⟩, ⟨1, 1, [⟨1, 2, 3, 4⟩]⟩⟩] :=
  ⟨(C7_writer_layout ⟨[⟨⟨5, 0, 0, 0, 0, .R5G6B5⟩, ⟨1, 1, [⟨1, 2, 3, 4⟩]⟩⟩]⟩
      (by decide)).1,
   (C7_writer_layout ⟨[⟨⟨5, 0, 0, 0, 0, .R5G6B5⟩, ⟨1, 1, [⟨1, 2, 3, 4⟩]⟩⟩]⟩
      (by decide)).2.2.1 0 (by decide),
   (C7_writer_layout ⟨[⟨⟨5, 0, 0, 0, 0, .R5G6B5⟩, ⟨1, 1, [⟨1, 2, 3, 4⟩]⟩⟩]⟩
      (by decide)).2.2.2⟩

/-- C8 counterexample: a 68-byte buffer declaring one 0 × 0 texture whose
payload pointer 0xFFFF lies far past the end of the buffer parses
successfully, because the zero-length payload read at the out-of-range
position succeeds. -/
theorem C8_counterexample :
    readU32 outOfRangePtrBuffer 0x40 = .ok 0xFFFF ∧
    outOfRangePtrBuffer.length = 68 ∧
    read_texture_package outOfRangePtrBuffer =
      .ok ⟨[⟨⟨2, 0, 0, 0, 0, .R8G8B8A8⟩, ⟨0, 0, []⟩⟩]⟩ := by
  refine ⟨?_, ?_, ?_⟩
  · decide
  · decide
  · decide

/-- A payload read whose declared extent reaches past the end of the buffer
fails with `MalformedContainer` (the declared size must be nonzero for any
byte to be read at all). -/
theorem read_texture_data_err (buffer : List Nat) (ptr w h : Nat)
    (format : TextureFormat) (hpos : 0 < data_size format w h)
    (hover : buffer.length < ptr + data_size format w h) :
    read_texture_data buffer ptr w h format = .error .malformedContainer := by
  unfold read_texture_data readExact
  rw [if_neg (by omega)]
  rfl

/-- C8 amended, in two prongs.  First: a buffer declaring a nonzero texture
count that is truncated at or before the start of the header table (too
short for the table pointer, or with the table pointer at or past the end)
makes `read_texture_package` fail with `MalformedContainer`.  Second: a
buffer whose first header record declares a nonzero payload size reaching
past the end of the buffer also fails with `MalformedContainer`.  (An
out-of-range pointer through which no byte is read — a zero-dimension
texture — is not an error; see the counterexample.) -/
theorem C8_amended_truncated :
    (∀ (buffer : List Nat) (count : Nat),
      readU32 buffer 0 = .ok count → 1 ≤ count →
      (buffer.length < 8 ∨
        ∀ ptr, readU32 buffer 4 = .ok ptr → buffer.length ≤ ptr) →
      read_texture_package buffer = .error .malformedContainer) ∧
    (∀ (buffer : List Nat) (count ptr dataPtr : Nat) (t : Texture),
      readU32 buffer 0 = .ok count → 1 ≤ count →
      readU32 buffer 4 = .ok ptr →
      SegAt buffer ptr (headerRecordBytes t dataPtr) →
      validTexture t → dataPtr < 2 ^ 32 →
      0 < data_size t.meta.texture_format t.data.width t.data.height →
      buffer.length < dataPtr +
        data_size t.meta.texture_format t.data.width t.data.height →
      read_texture_package buffer = .error .malformedContainer) := by
  constructor
  · intro buffer count hc hcount htrunc
    unfold read_texture_package
    rw [hc, except_bind_ok]
    rcases htrunc with hshort | hptr
    · rw [readU32_err buffer 4 (by omega), except_bind_err]
    · by_cases hlen : buffer.length < 8
      · rw [readU32_err buffer 4 (by omega), except_bind_err]
      · have hv : readU32 buffer 4 = .ok (fromLE ((buffer.drop 4).take 4))
            := by
          unfold readU32 readExact
          rw [if_pos (by omega)]
          rfl
        rw [hv, except_bind_ok]
        have hbound := hptr (fromLE ((buffer.drop 4).take 4)) hv
        obtain ⟨k, rfl⟩ : ∃ k, count = k + 1 := ⟨count - 1, by omega⟩
        rw [readTextures]
        unfold readTexture
        rw [readU32_err buffer (fromLE ((buffer.drop 4).take 4)) (by omega),
          except_bind_err, except_bind_err]
        rfl
  · intro buffer count ptr dataPtr t hc hcount hp hrec hv hoff hpos hover
    obtain ⟨hlen, hpix, hwlt, hhlt, hid, hc1, hc2, h101, h102, h141, h142,
      h181, h182⟩ := hv
    have hTex : readTexture buffer ptr = .error .malformedContainer := by
      unfold headerRecordBytes at hrec
      obtain ⟨h8, hPtr⟩ := SegAt_split hrec
      obtain ⟨h7, hCode⟩ := SegAt_split h8
      obtain ⟨h6, hU18⟩ := SegAt_split h7
      obtain ⟨h5, hU14⟩ := SegAt_split h6
      obtain ⟨h4, hU10⟩ := SegAt_split h5
      obtain ⟨h3, hUc⟩ := SegAt_split h4
      obtain ⟨h2, hH⟩ := SegAt_split h3
      obtain ⟨hId, hW⟩ := SegAt_split h2
      have hW4 : SegAt buffer (ptr + 4) (le32 t.data.width) := hW
      have hH8 : SegAt buffer (ptr + 8) (le32 t.data.height) := hH
      have hUc12 : SegAt buffer (ptr + 12) (i32le t.meta.unk_c) := hUc
      have hU1016 : SegAt buffer (ptr + 16) (i32le t.meta.unk_10) := hU10
      have hU1420 : SegAt buffer (ptr + 20) (i32le t.meta.unk_14) := hU14
      have hU1824 : SegAt buffer (ptr + 24) (i32le t.meta.unk_18) := hU18
      have hCode28 : SegAt buffer (ptr + 28)
          (le32 t.meta.texture_format.code) := hCode
      have hPtr32 : SegAt buffer (ptr + 32) (le32 dataPtr) := hPtr
      have hcode32 : t.meta.texture_format.code < 2 ^ 32 := by
        cases t.meta.texture_format <;> norm_num [TextureFormat.code]
      unfold readTexture
      rw [readU32_of_SegAt hId hid, except_bind_ok,
        readU32_of_SegAt hW4 hwlt, except_bind_ok,
        readU32_of_SegAt hH8 hhlt, except_bind_ok,
        readI32_of_SegAt hUc12 hc1 hc2, except_bind_ok,
        readI32_of_SegAt hU1016 h101 h102, except_bind_ok,
        readI32_of_SegAt hU1420 h141 h142, except_bind_ok,
        readI32_of_SegAt hU1824 h181 h182, except_bind_ok,
        readU32_of_SegAt hCode28 hcode32, except_bind_ok,
        parseTextureFormat_code, except_bind_ok,
        readU32_of_SegAt hPtr32 hoff, except_bind_ok,
        read_texture_data_err buffer dataPtr t.data.width t.data.height
          t.meta.texture_format hpos hover, except_bind_err]
    unfold read_texture_package
    rw [hc, except_bind_ok, hp, except_bind_ok]
    obtain ⟨k, rfl⟩ : ∃ k, count = k + 1 := ⟨count - 1, by omega⟩
    rw [readTextures, hTex, except_bind_err, except_bind_err]

/-- Concrete instances of the amended C8: a 4-byte buffer declaring one
texture, and a 68-byte buffer whose single record declares 4 payload bytes
past the end, both yield `MalformedContainer`. -/
theorem C8_amended_truncated_witness :
    read_texture_package [1, 0, 0, 0] = .error .malformedContainer ∧
    read_texture_package truncatedPayloadBuffer =
      .error .malformedContainer :=
  ⟨C8_amended_truncated.1 [1, 0, 0, 0] 1 (by decide) (by decide)
      (Or.inl (by decide)),
   C8_amended_truncated.2 truncatedPayloadBuffer 1 0x20 0x44
      ⟨⟨7, 0, 0, 0, 0, .R5G5B5A1⟩, ⟨2, 1, [⟨0, 0, 0, 0⟩, ⟨0, 0, 0, 0⟩]⟩⟩
      (by decide) (by decide) (by decide)
      ⟨[1, 0, 0, 0, 0x20, 0, 0, 0] ++ List.replicate 24 0, [],
        by simp [truncatedPayloadBuffer], by decide⟩
      (by unfold validTexture; decide) (by decide) (by decide) (by decide)⟩

/-! ## Directory assembly -/

/-- Skipped entries (subdirectories and non-png files) contribute nothing. -/
theorem assembleTextures_skip :
    ∀ items : List DirItem,
      (∀ item ∈ items, item.isDir = true ∨ item.ext ≠ some "png") →
      assembleTextures items = .ok [] := by
  intro items
  induction items with
  | nil => intro _; rfl
  | cons item rest ih =>
    intro hs
    have hitem := hs item (List.mem_cons_self item rest)
    have hrest := ih (fun q hq => hs q (List.mem_cons_of_mem item hq))
    unfold assembleTextures
    rcases hitem with hd | he
    · rw [if_pos hd]
      exact hrest
    · by_cases hd : item.isDir
      · rw [if_pos hd]
        exact hrest
      · rw [if_neg hd, if_pos he]
        exact hrest

/-- C9: directory assembly fails with `MissingMetadata` at a qualifying png
lacking its sidecar, when every earlier entry is either skipped (a
subdirectory or a non-png file) or successfully processed (a qualifying png
whose sidecar exists and whose sidecar and image both decode) — regardless
of what follows — and a listing of only subdirectories and non-png files
assembles to the empty package without error. -/
theorem C9_missing_metadata :
    (∀ (pre : List DirItem) (bad : DirItem) (rest : List DirItem),
      (∀ item ∈ pre,
        (item.isDir = true ∨ item.ext ≠ some "png") ∨
        (item.isDir = false ∧ item.ext = some "png" ∧ item.hasMeta = true ∧
          (∃ m, item.metaJson = .ok m) ∧ (∃ d, item.imageFile = .ok d))) →
      bad.isDir = false → bad.ext = some "png" → bad.hasMeta = false →
      from_directory (pre ++ bad :: rest) = .error .missingMetadata) ∧
    (∀ items : List DirItem,
      (∀ item ∈ items, item.isDir = true ∨ item.ext ≠ some "png") →
      from_directory items = .ok ⟨[]⟩) := by
  have hbadstep : ∀ (bad : DirItem) (rest : List DirItem),
      bad.isDir = false → bad.ext = some "png" → bad.hasMeta = false →
      assembleTextures (bad :: rest) = .error .missingMetadata := by
    intro bad rest hd he hm
    unfold assembleTextures
    rw [if_neg (by rw [hd]; exact Bool.false_ne_true)]
    rw [if_neg (by rw [he]; simp)]
    rw [if_pos hm]
  have hmain : ∀ (pre : List DirItem) (bad : DirItem) (rest : List DirItem),
      (∀ item ∈ pre,
        (item.isDir = true ∨ item.ext ≠ some "png") ∨
        (item.isDir = false ∧ item.ext = some "png" ∧ item.hasMeta = true ∧
          (∃ m, item.metaJson = .ok m) ∧ (∃ d, item.imageFile = .ok d))) →
      bad.isDir = false → bad.ext = some "png" → bad.hasMeta = false →
      assembleTextures (pre ++ bad :: rest) = .error .missingMetadata := by
    intro pre
    induction pre with
    | nil =>
      intro bad rest _ hd he hm
      exact hbadstep bad rest hd he hm
    | cons item pre2 ih =>
      intro bad rest hs hd he hm
      have hitem := hs item (List.mem_cons_self item pre2)
      have hrest := ih bad rest
        (fun q hq => hs q (List.mem_cons_of_mem item hq)) hd he hm
      rw [List.cons_append]
      unfold assembleTextures
      rcases hitem with (hd2 | he2) | ⟨hd2, he2, hm2, ⟨m, hmj⟩, ⟨d, hif⟩⟩
      · rw [if_pos hd2]
        exact hrest
      · by_cases hd2 : item.isDir
        · rw [if_pos hd2]
          exact hrest
        · rw [if_neg hd2, if_pos he2]
          exact hrest
      · rw [if_neg (by rw [hd2]; exact Bool.false_ne_true)]
        rw [if_neg (by rw [he2]; simp)]
        rw [if_neg (by rw [hm2]; simp)]
        rw [hmj, hif, hrest]
        rfl
  constructor
  · intro pre bad rest hs hd he hm
    unfold from_directory
    rw [hmain pre bad rest hs hd he hm]
    rfl
  · intro items hs
    unfold from_directory
    rw [assembleTextures_skip items hs]
    rfl

/-- Concrete instance of C9: a listing whose first entry is a fully valid
png-plus-sidecar texture, followed by a subdirectory and then a png without
sidecar, aborts with `MissingMetadata`; a listing with only the
subdirectory assembles to the empty package. -/
theorem C9_missing_metadata_witness :
    from_directory
        [⟨false, some "png", true, .ok ⟨3, 0, 0, 0, 0, .R8G8B8A8⟩,
            .ok ⟨1, 1, [⟨1, 2, 3, 4⟩]⟩⟩,
         ⟨true, none, false, .error (), .error ()⟩,
         ⟨false, some "png", false, .error (), .error ()⟩] =
      .error .missingMetadata ∧
    from_directory [⟨true, none, false, .error (), .error ()⟩] = .ok ⟨[]⟩ :=
  ⟨C9_missing_metadata.1
      [⟨false, some "png", true, .ok ⟨3, 0, 0, 0, 0, .R8G8B8A8⟩,
          .ok ⟨1, 1, [⟨1, 2, 3, 4⟩]⟩⟩,
       ⟨true, none, false, .error (), .error ()⟩]
      ⟨false, some "png", false, .error (), .error ()⟩ []
      (fun item hitem => by
        rw [List.mem_cons, List.mem_singleton] at hitem
        rcases hitem with hitem | hitem <;> subst hitem
        · exact Or.inr ⟨rfl, rfl, rfl, ⟨⟨3, 0, 0, 0, 0, .R8G8B8A8⟩, rfl⟩,
            ⟨⟨1, 1, [⟨1, 2, 3, 4⟩]⟩, rfl⟩⟩
        · exact Or.inl (Or.inl rfl))
      rfl rfl rfl,
   C9_missing_metadata.2 [⟨true, none, false, .error (), .error ()⟩]
      (fun item hitem => by
        rw [List.mem_singleton] at hitem
        subst hitem
        exact Or.inl rfl)⟩
